import Mathlib

/-!
# Verification of the offline-sync subsystem

A shallow embedding of the offline-sync plugin (version tracker, outbound
queues, conflict detection and resolution, ship liveness tracking, media URL
rewriting, sensitive-data redaction, and the document-service middleware),
together with proofs of the specified properties.

Conventions: JavaScript strings are modelled as `List Char`; JSON payloads as
the mutual inductive `Json`/`JsonObj`; database tables as Lean lists threaded
through explicit state; fallible service calls as `Except`-valued outcomes
supplied by an environment record.
-/

namespace OfflineSync

/-- A JavaScript string. -/
abbrev JStr := List Char

mutual

/-- JSON payloads as handled by the plugin.  Arrays and objects carry their
children through the mutually inductive list types so that every function on
payloads is structurally recursive (and hence computes by rfl / decide). -/
inductive Json where
  | null : Json
  | bool (b : Bool) : Json
  | num (n : Int) : Json
  | str (s : JStr) : Json
  | arr (items : JsonArr) : Json
  | obj (fields : JsonObj) : Json
deriving DecidableEq

inductive JsonArr where
  | nil : JsonArr
  | cons (hd : Json) (tl : JsonArr) : JsonArr
deriving DecidableEq

inductive JsonObj where
  | nil : JsonObj
  | cons (k : JStr) (v : Json) (tl : JsonObj) : JsonObj
deriving DecidableEq

end

/-- Keys of a JSON object, in order (Object.keys). -/
def JsonObj.keys : JsonObj → List JStr
  | .nil => []
  | .cons k _ tl => k :: tl.keys

/-- First-match lookup of a key in a JSON object (JS property access). -/
def JsonObj.lookup : JsonObj → JStr → Option Json
  | .nil, _ => none
  | .cons k v tl, k' => if k = k' then some v else tl.lookup k'

/-! ## String search and replacement

The media-sync service rewrites URLs with
data.replace(new RegExp(escapeRegex(fromBaseUrl), 'g'), toBaseUrl) guarded by
data.includes(fromBaseUrl): a literal, global, left-to-right, non-overlapping
replacement whose output is not rescanned within the same pass.  (Dollar
escape sequences in the replacement are not modelled; base URLs contain
none.) -/

/-- A = a prefix of s (String.prototype.startsWith). -/
def isPre : JStr → JStr → Bool
  | [], _ => true
  | _ :: _, [] => false
  | a :: as, b :: bs => (a == b) && isPre as bs

/-- A occurs as a contiguous substring of s (String.prototype.includes). -/
def hasSub (A : JStr) : JStr → Bool
  | [] => isPre A []
  | s@(_ :: rest) => isPre A s || hasSub A rest

/-- Fuel-indexed scanner for global literal replacement: at each position,
if the pattern A starts here, emit B and resume after the match, otherwise
copy one character.  With fuel at least s.length this is exactly the
semantics of s.replace(/A/g, B). -/
def replFuel (A B : JStr) : Nat → JStr → JStr
  | _, [] => []
  | 0, s => s
  | f + 1, s@(c :: cs) =>
      if isPre A s then B ++ replFuel A B f (s.drop A.length)
      else c :: replFuel A B f cs

/-- Global literal replacement of A by B in s. -/
def replaceAll (s A B : JStr) : JStr := replFuel A B s.length s

/-- The string case of transformUrls: replace only when the from-base is
present (the replacement is the identity otherwise anyway). -/
def jsReplace (s A B : JStr) : JStr := if hasSub A s then replaceAll s A B else s

mutual

/-- transformUrls from the media-sync service: depth-bounded structural
traversal replacing every occurrence of fromBaseUrl by toBaseUrl in every
string of the payload.  Depth above 20 returns the data unchanged. -/
def transformUrls (fromBaseUrl toBaseUrl : JStr) (mediaFields : List JStr) :
    Json → Nat → Json
  | j, depth =>
    if depth > 20 then j
    else
      match j with
      | .null => .null
      | .str s => .str (jsReplace s fromBaseUrl toBaseUrl)
      | .arr l => .arr (transformUrlsArr fromBaseUrl toBaseUrl mediaFields l (depth + 1))
      | .obj o => .obj (transformUrlsObj fromBaseUrl toBaseUrl mediaFields o (depth + 1))
      | .bool b => .bool b
      | .num n => .num n

def transformUrlsArr (fromBaseUrl toBaseUrl : JStr) (mediaFields : List JStr) :
    JsonArr → Nat → JsonArr
  | .nil, _ => .nil
  | .cons hd tl, depth =>
      .cons (transformUrls fromBaseUrl toBaseUrl mediaFields hd depth)
        (transformUrlsArr fromBaseUrl toBaseUrl mediaFields tl depth)

def transformUrlsObj (fromBaseUrl toBaseUrl : JStr) (mediaFields : List JStr) :
    JsonObj → Nat → JsonObj
  | .nil, _ => .nil
  | .cons k v tl, depth =>
      .cons k (transformUrls fromBaseUrl toBaseUrl mediaFields v depth)
        (transformUrlsObj fromBaseUrl toBaseUrl mediaFields tl depth)

end

/-! ## Sensitive-data redaction (bootstrap.ts stripSensitiveData) -/

/-- SENSITIVE_FIELDS from bootstrap.ts. -/
def SENSITIVE_FIELDS : List JStr :=
  ["password".toList, "resetPasswordToken".toList, "confirmationToken".toList,
   "registrationToken".toList, "token".toList, "secret".toList, "apiKey".toList]

mutual

/-- stripSensitiveData from bootstrap.ts: recursively walk the payload and
replace the value of every sensitive key by the string [REDACTED].
Primitives (and null) are returned as-is; arrays are mapped; objects are
rebuilt key by key. -/
def stripSensitiveData : Json → Json
  | .null => .null
  | .bool b => .bool b
  | .num n => .num n
  | .str s => .str s
  | .arr l => .arr (stripSensitiveDataArr l)
  | .obj o => .obj (stripSensitiveDataObj o)

def stripSensitiveDataArr : JsonArr → JsonArr
  | .nil => .nil
  | .cons hd tl => .cons (stripSensitiveData hd) (stripSensitiveDataArr tl)

def stripSensitiveDataObj : JsonObj → JsonObj
  | .nil => .nil
  | .cons k v tl =>
      if k ∈ SENSITIVE_FIELDS then
        .cons k (.str "[REDACTED]".toList) (stripSensitiveDataObj tl)
      else
        .cons k (stripSensitiveData v) (stripSensitiveDataObj tl)

end

/-! ## Version tracker (services/version-tracker.ts) -/

/-- JavaScript truthiness on our JSON values. -/
def truthy : Json → Bool
  | .null => false
  | .bool b => b
  | .num n => n != 0
  | .str s => !s.isEmpty
  | .arr _ => true
  | .obj _ => true

/-- Object.keys of a JSON value: field names for objects, nothing for the
primitives the plugin feeds in. -/
def jsonKeys : Json → List JStr
  | .obj o => o.keys
  | _ => []

/-- Field access data[key] on a JSON value. -/
def jsonGet (j : Json) (k : JStr) : Option Json :=
  match j with
  | .obj o => o.lookup k
  | _ => none

/-- local.syncVersion || 0 : the syncVersion field when it is a number,
0 otherwise. -/
def getSyncVersion (j : Json) : Int :=
  match jsonGet j "syncVersion".toList with
  | some (.num n) => n
  | _ => 0

/-- local.data || local : prefer a truthy data field, fall back to the
object itself. -/
def dataOrSelf (j : Json) : Json :=
  match jsonGet j "data".toList with
  | some d => if truthy d then d else j
  | none => j

inductive ConflictType where
  | direct
  | indirect
  | structural
deriving DecidableEq

/-- Result record of detectConflict. -/
structure DCResult where
  hasConflict : Bool
  conflictingFields : Option (List JStr)
  conflictType : Option ConflictType
deriving DecidableEq

/-- The reserved field set excluded from the per-field diff. -/
def excludeFields : List JStr :=
  ["id".toList, "createdAt".toList, "updatedAt".toList, "publishedAt".toList,
   "syncVersion".toList, "lastSyncedAt".toList, "modifiedByLocation".toList,
   "syncStatus".toList, "conflictFlag".toList]

/-- detectConflict from version-tracker.ts.  Null inputs report no conflict;
equal syncVersions report no conflict; otherwise the conflicting fields are
the common non-reserved fields whose (stringified) values differ, followed by
the fields present on one side only, and any non-empty set is reported as a
direct conflict.  (JSON.stringify equality coincides with structural
equality on this model.) -/
def detectConflict (localE remoteE : Json) : DCResult :=
  if localE = .null ∨ remoteE = .null then ⟨false, none, none⟩
  else
    let localVersion := getSyncVersion localE
    let remoteVersion := getSyncVersion remoteE
    if localVersion = remoteVersion then ⟨false, none, none⟩
    else
      let localData := dataOrSelf localE
      let remoteData := dataOrSelf remoteE
      let localKeys := (jsonKeys localData).filter (fun k => k ∉ excludeFields)
      let remoteKeys := (jsonKeys remoteData).filter (fun k => k ∉ excludeFields)
      let commonDiff := localKeys.filter (fun k =>
        k ∈ remoteKeys && jsonGet localData k != jsonGet remoteData k)
      let onlyInLocal := localKeys.filter (fun k => k ∉ remoteKeys)
      let onlyInRemote := remoteKeys.filter (fun k => k ∉ localKeys)
      let conflictingFields := commonDiff ++ onlyInLocal ++ onlyInRemote
      if conflictingFields.isEmpty then ⟨false, none, none⟩
      else ⟨true, some conflictingFields, some .direct⟩

inductive SyncStatus where
  | pending
  | synced
  | conflict
deriving DecidableEq

/-- One sync-metadata row. -/
structure MetaRow where
  rid : Nat
  contentType : JStr
  entityId : Int
  syncVersion : Int
  modifiedByLocation : JStr
  syncStatus : SyncStatus
  lastSyncedAt : Option Int
  conflictFlag : Bool
deriving DecidableEq

/-- findOne on the sync-metadata table: first row for (contentType,
entityId). -/
def findMeta (tbl : List MetaRow) (ct : JStr) (eid : Int) : Option MetaRow :=
  tbl.find? (fun m => m.contentType = ct && m.entityId = eid)

/-- update({ where: { id } }) on the sync-metadata table. -/
def updateMetaById (tbl : List MetaRow) (rid : Nat) (f : MetaRow → MetaRow) :
    List MetaRow :=
  tbl.map (fun m => if m.rid = rid then f m else m)

/-- markSynced from version-tracker.ts: when a metadata row exists for the
entity, stamp lastSyncedAt, set syncStatus to synced and clear the conflict
flag; otherwise do nothing. -/
def markSynced (now : Int) (ct : JStr) (eid : Int) (tbl : List MetaRow) :
    List MetaRow :=
  match findMeta tbl ct eid with
  | none => tbl
  | some m => updateMetaById tbl m.rid (fun r =>
      { r with lastSyncedAt := some now, syncStatus := .synced,
               conflictFlag := false })

/-- incrementVersion from version-tracker.ts: create the metadata row at
version 1 when absent, otherwise bump the version; either way record the
modifying location and a pending status.  Returns the new version and the
updated table (with a fresh row id drawn from nextRid). -/
def incrementVersion (ct : JStr) (eid : Int) (location : JStr)
    (tbl : List MetaRow) (nextRid : Nat) : Int × List MetaRow × Nat :=
  match findMeta tbl ct eid with
  | none =>
      (1,
       tbl ++ [{ rid := nextRid, contentType := ct, entityId := eid,
                 syncVersion := 1, modifiedByLocation := location,
                 syncStatus := .pending, lastSyncedAt := none,
                 conflictFlag := false }],
       nextRid + 1)
  | some m =>
      (m.syncVersion + 1,
       updateMetaById tbl m.rid (fun r =>
         { r with syncVersion := m.syncVersion + 1,
                  modifiedByLocation := location, syncStatus := .pending }),
       nextRid)

/-! ## Ship tracker (services/ship-tracker.ts)

Times are integers in milliseconds, matching Date.getTime(). -/

/-- One sync-session row. -/
structure Session where
  rid : Nat
  shipId : JStr
  lastSeenAt : Int
  isOnline : Bool
  onlineThreshold : Option Int
deriving DecidableEq

/-- session.onlineThreshold || 300000 — the stored threshold unless it is
absent or zero, in which case the 5-minute default applies. -/
def effThreshold (t : Option Int) : Int :=
  match t with
  | none => 300000
  | some v => if v = 0 then 300000 else v

/-- update({ where: { id } }) on the sync-session table. -/
def updateSessionById (tbl : List Session) (rid : Nat) (f : Session → Session) :
    List Session :=
  tbl.map (fun s => if s.rid = rid then f s else s)

/-- isShipOnline from ship-tracker.ts: no stored session reports offline;
otherwise the ship is online iff now − lastSeenAt < threshold, and the stored
isOnline flag is rewritten whenever the computed value differs from it. -/
def isShipOnline (now : Int) (shipId : JStr) (tbl : List Session) :
    Bool × List Session :=
  match tbl.find? (fun s => s.shipId = shipId) with
  | none => (false, tbl)
  | some s =>
      if s.isOnline ≠ decide (now - s.lastSeenAt < effThreshold s.onlineThreshold)
      then
        (decide (now - s.lastSeenAt < effThreshold s.onlineThreshold),
         updateSessionById tbl s.rid (fun r =>
           { r with isOnline :=
               decide (now - s.lastSeenAt < effThreshold s.onlineThreshold) }))
      else (decide (now - s.lastSeenAt < effThreshold s.onlineThreshold), tbl)

/-- markOfflineShips from ship-tracker.ts: scan the sessions currently
flagged online and flip every stale one (now − lastSeenAt ≥ threshold) to
offline, updating row by row as the loop does. -/
def markOfflineShips (now : Int) (tbl : List Session) : List Session :=
  (tbl.filter (fun s => s.isOnline)).foldl
    (fun acc s =>
      if now - s.lastSeenAt ≥ effThreshold s.onlineThreshold then
        updateSessionById acc s.rid (fun r => { r with isOnline := false })
      else acc)
    tbl

/-! ## Replica outbound sync queue

Modelled from the spec: the sync-queue service used by the replica branch of
the document middleware (bootstrap.ts enqueues rows with shipId, contentType,
contentId, operation, localVersion, data and locale) is not part of the
repository snapshot; only its callers are.  Spec 4.B: enqueue overwrites the
data, operation and version of an existing pending row with the same
(contentType, contentId, locale) and resets its retryCount to 0, otherwise it
inserts a new pending row. -/

inductive QStatus where
  | pending
  | sent
  | failed
deriving DecidableEq

/-- One replica outbound queue row (spec 3, SyncQueueEntry). -/
structure SyncQueueEntry where
  rid : Nat
  shipId : JStr
  contentType : JStr
  contentId : JStr
  operation : JStr
  localVersion : Int
  data : Json
  locale : Option JStr
  status : QStatus
  retryCount : Nat
  createdAt : Int
deriving DecidableEq

/-- The argument record of sync-queue enqueue, as built by bootstrap.ts. -/
structure EnqArg where
  shipId : JStr
  contentType : JStr
  contentId : JStr
  operation : JStr
  localVersion : Int
  data : Json
  locale : Option JStr
deriving DecidableEq

/-- The replica outbound queue table plus the fresh-row-id counter. -/
structure QueueState where
  rows : List SyncQueueEntry
  nextRid : Nat
deriving DecidableEq

/-- update({ where: { id } }) on the sync-queue table. -/
def updateQueueById (tbl : List SyncQueueEntry) (rid : Nat)
    (f : SyncQueueEntry → SyncQueueEntry) : List SyncQueueEntry :=
  tbl.map (fun r => if r.rid = rid then f r else r)

/-- Modelled from the spec: sync-queue enqueue.  A pending row with the same
(contentType, contentId, locale) is overwritten in place — operation, data
and localVersion are replaced and retryCount is reset to 0 — else a fresh
pending row is inserted. -/
def enqueue (now : Int) (o : EnqArg) (st : QueueState) : QueueState :=
  match st.rows.find? (fun r =>
      r.contentType = o.contentType && r.contentId = o.contentId &&
      r.locale = o.locale && r.status = QStatus.pending) with
  | some r =>
      { st with rows := updateQueueById st.rows r.rid (fun q =>
          { q with operation := o.operation, data := o.data,
                   localVersion := o.localVersion, retryCount := 0 }) }
  | none =>
      let row : SyncQueueEntry :=
        { rid := st.nextRid, shipId := o.shipId,
          contentType := o.contentType, contentId := o.contentId,
          operation := o.operation, localVersion := o.localVersion,
          data := o.data, locale := o.locale, status := .pending,
          retryCount := 0, createdAt := now }
      { rows := st.rows ++ [row], nextRid := st.nextRid + 1 }

/-! ## Conflict log and resolver (services/conflict-resolver.ts) -/

inductive CStatus where
  | pending
  | resolved
deriving DecidableEq

/-- One conflict-log row. -/
structure ConflictRow where
  rid : Nat
  contentType : JStr
  entityId : Int
  localData : Json
  remoteData : Json
  conflictingFields : List JStr
  conflictType : ConflictType
  status : CStatus
  resolution : Option JStr
  mergedData : Option Json
  resolvedAt : Option Int
  resolvedBy : Option Int
deriving DecidableEq

/-- One CMS entity: its attributes live in data. -/
structure EntityRow where
  contentType : JStr
  entityId : Int
  data : JsonObj
deriving DecidableEq

/-- The database state threaded through the apply and resolve paths. -/
structure SyncState where
  entities : List EntityRow
  meta : List MetaRow
  conflicts : List ConflictRow
  nextRid : Nat
  nextEid : Int
deriving DecidableEq

/-- entityService.findOne(contentType, entityId). -/
def findEntity (st : SyncState) (ct : JStr) (eid : Int) : Option EntityRow :=
  st.entities.find? (fun e => e.contentType = ct && e.entityId = eid)

/-- The object fields of a JSON value; a spread of a non-object yields the
empty object. -/
def jsonFieldsOf : Json → JsonObj
  | .obj o => o
  | _ => .nil

/-- update({ where: { id } }) on the conflict-log table. -/
def updateConflictById (tbl : List ConflictRow) (rid : Nat)
    (f : ConflictRow → ConflictRow) : List ConflictRow :=
  tbl.map (fun c => if c.rid = rid then f c else c)

/-- flagConflict from conflict-resolver.ts: refresh the existing pending
conflict row for (contentType, entityId) when there is one, otherwise create
a new pending row. -/
def flagConflict (ct : JStr) (eid : Int) (localData remoteData : Json)
    (fields : List JStr) (ctype : ConflictType) (st : SyncState) : SyncState :=
  match st.conflicts.find? (fun c =>
      c.contentType = ct && c.entityId = eid && c.status = CStatus.pending) with
  | some ex =>
      { st with conflicts := updateConflictById st.conflicts ex.rid (fun c =>
          { c with localData := localData, remoteData := remoteData,
                   conflictingFields := fields, conflictType := ctype }) }
  | none =>
      let row : ConflictRow :=
        { rid := st.nextRid, contentType := ct, entityId := eid,
          localData := localData, remoteData := remoteData,
          conflictingFields := fields, conflictType := ctype,
          status := .pending, resolution := none, mergedData := none,
          resolvedAt := none, resolvedBy := none }
      { st with conflicts := st.conflicts ++ [row], nextRid := st.nextRid + 1 }

/-- The reserved set skipped by autoMerge. -/
def autoMergeReserved : List JStr :=
  ["id".toList, "createdAt".toList, "updatedAt".toList, "syncVersion".toList]

/-- Append one field at the end of an object. -/
def JsonObj.snoc : JsonObj → JStr → Json → JsonObj
  | .nil, k, v => .cons k v .nil
  | .cons k' v' tl, k, v => .cons k' v' (tl.snoc k v)

/-- The loop of autoMerge: walk the remote fields, adding each non-reserved
field that the accumulated merge does not yet define. -/
def autoMergeAux (acc : JsonObj) : JsonObj → JsonObj
  | .nil => acc
  | .cons k v tl =>
      if k ∉ autoMergeReserved ∧ (acc.lookup k).isNone then
        autoMergeAux (acc.snoc k v) tl
      else autoMergeAux acc tl

/-- autoMerge from conflict-resolver.ts: shallow merge with local as the
base, filling fields absent there from remote, skipping the reserved set. -/
def autoMerge (localD remoteD : Json) : Json :=
  .obj (autoMergeAux (jsonFieldsOf localD) (jsonFieldsOf remoteD))

/-- entityService.update(contentType, entityId, { data }). -/
def updateEntity (st : SyncState) (ct : JStr) (eid : Int) (d : JsonObj) :
    SyncState :=
  { st with entities := st.entities.map (fun e =>
      if e.contentType = ct ∧ e.entityId = eid then { e with data := d } else e) }

/-- entityService.create(contentType, { data }): the new entity receives a
fresh id of the service's choosing. -/
def createEntity (st : SyncState) (ct : JStr) (d : JsonObj) : SyncState :=
  { st with entities := st.entities ++ [⟨ct, st.nextEid, d⟩],
            nextEid := st.nextEid + 1 }

/-- The switch of resolveConflict choosing the payload to write back:
keep_local and keep_remote pick the stored sides, merge picks the explicit
merged payload when truthy and the auto-merge otherwise; any other
resolution falls to the default case (none here, a throw in the source). -/
def resolveFinalData (c : ConflictRow) (resolution : JStr)
    (mergedData : Option Json) : Option Json :=
  if resolution = "keep_local".toList then some c.localData
  else if resolution = "keep_remote".toList then some c.remoteData
  else if resolution = "merge".toList then
    some (match mergedData with
      | some md =>
          if truthy md then md else autoMerge c.localData c.remoteData
      | none => autoMerge c.localData c.remoteData)
  else none

/-- The write-back phase of resolveConflict: create or update the entity,
mark the conflict row resolved, then markSynced the metadata. -/
def resolveApplyOk (now : Int) (c : ConflictRow) (resolution : JStr)
    (finalData : Json) (resolvedBy : Option Int) (st : SyncState) : SyncState :=
  let st1 :=
    match findEntity st c.contentType c.entityId with
    | none =>
        if resolution = "keep_local".toList ∨ resolution = "merge".toList
        then createEntity st c.contentType (jsonFieldsOf finalData)
        else st
    | some _ => updateEntity st c.contentType c.entityId (jsonFieldsOf finalData)
  let resolveRow : ConflictRow → ConflictRow := fun r =>
    { r with status := .resolved, resolution := some resolution,
             mergedData := some finalData,
             resolvedAt := some now, resolvedBy := resolvedBy }
  let st2 :=
    { st1 with conflicts := updateConflictById st1.conflicts c.rid resolveRow }
  { st2 with meta := markSynced now c.contentType c.entityId st2.meta }

/-- resolveConflict from conflict-resolver.ts.  Returns the state after the
call together with the raised error, if any; the state returned with an
error is the state at the moment of the throw. -/
def resolveConflict (now : Int) (conflictId : Nat) (resolution : JStr)
    (mergedData : Option Json) (resolvedBy : Option Int) (st : SyncState) :
    SyncState × Option JStr :=
  match st.conflicts.find? (fun c => c.rid = conflictId) with
  | none => (st, some "Conflict not found or already resolved".toList)
  | some c =>
    if c.status = .resolved then
      (st, some "Conflict not found or already resolved".toList)
    else
      match resolveFinalData c resolution mergedData with
      | none => (st, some "Invalid resolution".toList)
      | some finalData =>
          (resolveApplyOk now c resolution finalData resolvedBy st, none)

/-! ## Apply path (sync-service applyChange) -/

/-- Whether a change is applied from the local queue or from a remote peer. -/
inductive ChangeSource where
  | fromLocal
  | fromRemote
deriving DecidableEq

/-- The change envelope consumed by applyChange. -/
structure Change where
  contentType : JStr
  entityId : Int
  data : Json
  operation : JStr
  version : Int
deriving DecidableEq

/-- JS object spread { ...o, k: v } : replace the value in place when the
key exists, append the field otherwise. -/
def JsonObj.setKey : JsonObj → JStr → Json → JsonObj
  | .nil, k, v => .cons k v .nil
  | .cons k' v' tl, k, v =>
      if k' = k then .cons k' v tl else .cons k' v' (tl.setKey k v)

/-- update({ where: { contentType, entityId } }) on the sync-metadata
table: rewrite the first matching row. -/
def updateMetaWhere (tbl : List MetaRow) (ct : JStr) (eid : Int)
    (f : MetaRow → MetaRow) : List MetaRow :=
  match findMeta tbl ct eid with
  | none => tbl
  | some m => updateMetaById tbl m.rid f

/-- The operation switch of applyChange followed by the unconditional
markSynced, given the pre-fetched local entity.  Unknown operations fall
through the switch and do nothing (there is no default case). -/
def applyOperation (now : Int) (change : Change) (source : ChangeSource)
    (localEntity : Option EntityRow) (st : SyncState) : SyncState :=
  let ct := change.contentType
  let eid := change.entityId
  let location : JStr :=
    match source with
    | .fromLocal => "local".toList
    | .fromRemote => "remote".toList
  let st1 :=
    if change.operation = "create".toList then
      match localEntity with
      | none =>
          let createdId := st.nextEid
          let stc := createEntity st ct (jsonFieldsOf change.data)
          let bumpId := if eid ≠ 0 then eid else createdId
          let (_, meta', nextRid') :=
            incrementVersion ct bumpId location stc.meta stc.nextRid
          { stc with meta := meta', nextRid := nextRid' }
      | some _ => st
    else if change.operation = "update".toList then
      match localEntity with
      | some _ =>
          let stu := updateEntity st ct eid (jsonFieldsOf change.data)
          let (_, meta', nextRid') :=
            incrementVersion ct eid location stu.meta stu.nextRid
          { stu with meta := meta', nextRid := nextRid' }
      | none => st
    else if change.operation = "delete".toList then
      match localEntity with
      | some _ =>
          { st with
            entities := st.entities.eraseP
              (fun e => e.contentType = ct && e.entityId = eid),
            meta := st.meta.eraseP
              (fun m => m.contentType = ct && m.entityId = eid) }
      | none => st
    else st
  { st1 with meta := markSynced now ct eid st1.meta }

/-- applyChange from the sync service.  Unknown content types are warned
about and dropped; a remote change against an existing local entity with
existing metadata goes through detectConflict and, on conflict, flags the
conflict, marks the metadata row conflicted and stops without applying;
otherwise the operation is dispatched and markSynced runs.  Returns whether
a conflict was detected, with the resulting state. -/
def applyChange (ctypes : List JStr) (now : Int) (change : Change)
    (source : ChangeSource) (st : SyncState) : Bool × SyncState :=
  if change.contentType ∉ ctypes then (false, st)
  else
    let localEntity := findEntity st change.contentType change.entityId
    let localMetadata := findMeta st.meta change.contentType change.entityId
    let conflictBranch :=
      match localEntity, localMetadata, source with
      | some e, some m, .fromRemote =>
          let dc := detectConflict
            (.obj ((e.data).setKey "syncVersion".toList (.num m.syncVersion)))
            (.obj ((jsonFieldsOf change.data).setKey "syncVersion".toList
              (.num change.version)))
          if dc.hasConflict then some (e, dc) else none
      | _, _, _ => none
    match conflictBranch with
    | some (e, dc) =>
        let st1 := flagConflict change.contentType change.entityId
          (.obj e.data) change.data
          ((dc.conflictingFields).getD []) ((dc.conflictType).getD .direct) st
        let meta2 := updateMetaWhere st1.meta change.contentType change.entityId
          (fun m => { m with syncStatus := .conflict, conflictFlag := true })
        (true, { st1 with meta := meta2 })
    | none =>
        (false, applyOperation now change source localEntity st)

/-! ## Document-service middleware (bootstrap.ts, strapi.documents.use)

The middleware runs after next() has succeeded; the value next() returned is
a parameter.  Each awaited service call inside the hook is fallible and its
outcome is supplied by the environment record; the try/catch structure of
the source decides which outcomes reach which effects.  The effect lists
record the service calls that completed successfully. -/

inductive Mode where
  | master
  | replica
deriving DecidableEq

/-- The plugin configuration consulted by the middleware. -/
structure MwConfig where
  mode : Mode
  contentTypes : List JStr
  shipId : Option JStr
deriving DecidableEq

/-- The two process-wide loop-prevention flags. -/
structure MwFlags where
  fromMaster : Bool
  fromShip : Bool
deriving DecidableEq

/-- Outcomes of the fallible service calls the hook may perform. -/
structure MwEnv where
  incVersionRes : Except JStr Int
  enqueueRes : Except JStr Unit
  findOneRes : Except JStr Json
  logEditRes : Except JStr Unit
  mediaEnabled : Bool
  fileIdsRes : Except JStr (List Int)
  fileRecordsRes : Except JStr (List Json)
  producerConnected : Bool
  sendRes : Except JStr Unit
  masterEnqueueRes : Except JStr Unit
  pushHandlerInstalled : Bool

/-- The attributes of an object result that the hook inspects. -/
structure RObj where
  documentId : Option JStr
  idStr : Option JStr
  locale : Option JStr
  hasBulkKeys : Bool
  keyCount : Nat
  payload : Json
deriving DecidableEq

/-- The value returned by next(). -/
inductive NR where
  | nullR
  | arrayR
  | objR (o : RObj)
deriving DecidableEq

def nrDocumentId : NR → Option JStr
  | .objR o => o.documentId
  | _ => none

def nrIdStr : NR → Option JStr
  | .objR o => o.idStr
  | _ => none

def nrLocale : NR → Option JStr
  | .objR o => o.locale
  | _ => none

def nrHasBulk : NR → Bool
  | .objR o => o.hasBulkKeys
  | _ => false

def nrPayload : NR → Json
  | .objR o => o.payload
  | _ => .null

/-- Object.keys(result).length for the shapes the hook can see here. -/
def nrKeyCount : NR → Nat
  | .objR o => o.keyCount
  | _ => 0

/-- The document-service context fields the hook reads. -/
structure MwCtx where
  action : JStr
  uid : JStr
  paramsDocumentId : Option JStr
  paramsLocale : Option JStr
deriving DecidableEq

/-- A Kafka message published to the ships topic. -/
structure PubMsg where
  shipId : JStr
  operation : JStr
  contentType : JStr
  contentId : JStr
  version : Int
  data : Json
  locale : Option JStr
  fileRecords : List Json
deriving DecidableEq

/-- A master broadcast-queue entry. -/
structure MQEntry where
  contentType : JStr
  contentId : JStr
  operation : JStr
  data : Json
  locale : Option JStr
deriving DecidableEq

/-- The persisted outcomes of one middleware invocation. -/
structure Effects where
  bumps : List (JStr × JStr)
  enqueued : List EnqArg
  pushTriggered : Bool
  editsLogged : List (JStr × JStr)
  published : List PubMsg
  masterQueued : List MQEntry
deriving DecidableEq

def Effects.empty : Effects := ⟨[], [], false, [], [], []⟩

/-- JS truthiness of an optional string (empty strings are falsy). -/
def truthyStr : Option JStr → Bool
  | some l => !l.isEmpty
  | none => false

def trackedActions : List JStr :=
  ["create".toList, "update".toList, "delete".toList, "publish".toList]

/-- Convert a list of JSON values to a JSON array. -/
def jsonArrOfList : List Json → JsonArr
  | [] => .nil
  | j :: tl => .cons j (jsonArrOfList tl)

/-- The replica branch of the hook (bootstrap.ts lines 978-1017): bump the
version (except for deletes), redact, enqueue and trigger the debounced
push, all inside one catch. -/
def replicaBranch (cfg : MwConfig) (env : MwEnv) (uid docId operation : JStr)
    (locale : Option JStr) (syncData : Json) : Effects :=
  let versionRes :=
    if operation ≠ "delete".toList then env.incVersionRes else .ok 0
  match versionRes with
  | .error _ => Effects.empty
  | .ok version =>
    let bumps := if operation ≠ "delete".toList then [(uid, docId)] else []
    let safeData :=
      if operation ≠ "delete".toList then stripSensitiveData syncData else .null
    match env.enqueueRes with
    | .error _ => { Effects.empty with bumps := bumps }
    | .ok _ =>
        let arg : EnqArg :=
          { shipId := cfg.shipId.getD [], contentType := uid,
            contentId := docId, operation := operation,
            localVersion := version, data := safeData, locale := locale }
        { Effects.empty with bumps := bumps, enqueued := [arg],
                             pushTriggered := env.pushHandlerInstalled }

/-- The master branch of the hook (bootstrap.ts lines 1018-1098): redact,
log the edit, extract file records (best effort), then publish directly when
the producer is connected or append to the broadcast queue, all inside one
catch. -/
def masterBranch (env : MwEnv) (uid docId operation : JStr)
    (locale : Option JStr) (syncData : Json) : Effects :=
  let safeData :=
    if operation ≠ "delete".toList then stripSensitiveData syncData else .null
  match env.logEditRes with
  | .error _ => Effects.empty
  | .ok _ =>
    let edits := [(uid, docId)]
    let fileRecords : List Json :=
      if truthy safeData ∧ operation ≠ "delete".toList then
        if env.mediaEnabled then
          match env.fileIdsRes with
          | .error _ => []
          | .ok ids =>
              if ids ≠ [] then
                match env.fileRecordsRes with
                | .ok rs => rs
                | .error _ => []
              else []
        else []
      else []
    if env.producerConnected then
      match env.sendRes with
      | .error _ => { Effects.empty with editsLogged := edits }
      | .ok _ =>
          let msg : PubMsg :=
            { shipId := "master".toList, operation := operation,
              contentType := uid, contentId := docId, version := 0,
              data := safeData, locale := locale, fileRecords := fileRecords }
          { Effects.empty with editsLogged := edits, published := [msg] }
    else
      match env.masterEnqueueRes with
      | .error _ => { Effects.empty with editsLogged := edits }
      | .ok _ =>
          let baseObj := jsonFieldsOf safeData
          let queueData : Json :=
            if fileRecords ≠ [] then
              .obj (baseObj.setKey "_fileRecords".toList
                (.arr (jsonArrOfList fileRecords)))
            else .obj baseObj
          let entry : MQEntry :=
            { contentType := uid, contentId := docId, operation := operation,
              data := queueData, locale := locale }
          { Effects.empty with editsLogged := edits, masterQueued := [entry] }

/-- The pure preamble of the middleware (bootstrap.ts lines 890-976): the
guard on plugin/admin uids, the allow-list and tracked-action filters, the
documentId extraction with its bulk-result skips, the action-to-operation
mapping and the locale fallback chain.  Returns none when the hook bails out
early, otherwise the documentId, the operation, the locale and whether the
publish path would refetch the full document. -/
def mwPre (cfg : MwConfig) (ctx : MwCtx) (res : NR) :
    Option (JStr × JStr × Option JStr × Bool) :=
  if ctx.uid = [] ∨ isPre "plugin::".toList ctx.uid ∨
      isPre "admin::".toList ctx.uid then none
  else if cfg.contentTypes ≠ [] ∧ ctx.uid ∉ cfg.contentTypes then none
  else if ctx.action ∉ trackedActions then none
  else
    let docId? : Option JStr :=
      if ctx.action = "delete".toList then
        if truthyStr ctx.paramsDocumentId then ctx.paramsDocumentId
        else if truthyStr (nrDocumentId res) then nrDocumentId res
        else none
      else
        if truthyStr (nrDocumentId res) then nrDocumentId res
        else if truthyStr (nrIdStr res) then nrIdStr res
        else if truthyStr ctx.paramsDocumentId then ctx.paramsDocumentId
        else none
    match docId? with
    | none => none
    | some docId =>
      if docId.isEmpty then none
      else if ctx.action ≠ "delete".toList ∧ (res = .arrayR ∨ nrHasBulk res) then
        none
      else
        let operation : JStr :=
          if ctx.action = "create".toList then "create".toList
          else if ctx.action = "delete".toList then "delete".toList
          else "update".toList
        let locale : Option JStr :=
          if truthyStr ctx.paramsLocale then ctx.paramsLocale
          else if truthyStr (nrLocale res) then nrLocale res
          else none
        let needRefetch :=
          ctx.action = "publish".toList ∧ (res = .nullR ∨ nrKeyCount res < 3)
        some (docId, operation, locale, needRefetch)

/-- The document-service middleware, after next() returned res.  Every
branch hands res back unchanged; the effects record what the sync hook
persisted.  (No fallible call happens outside the two branch catches, so
the outer catch of the source has nothing left to catch in this model.) -/
def runMw (cfg : MwConfig) (flags : MwFlags) (env : MwEnv) (ctx : MwCtx)
    (res : NR) : NR × Effects :=
  match mwPre cfg ctx res with
  | none => (res, Effects.empty)
  | some (docId, operation, locale, needRefetch) =>
      let syncData : Json :=
        if needRefetch then
          match env.findOneRes with
          | .ok j => j
          | .error _ => nrPayload res
        else nrPayload res
      if cfg.mode = .replica then
        if flags.fromMaster then (res, Effects.empty)
        else (res, replicaBranch cfg env ctx.uid docId operation locale syncData)
      else
        if flags.fromShip then (res, Effects.empty)
        else (res, masterBranch env ctx.uid docId operation locale syncData)

/-! # Theorems -/

/-- C1: every path of the document middleware hands back the value next()
returned.  All fallible sync work happens behind the branch catches (and
the outer catch), so whatever the service-call outcomes in the environment
— version bump, enqueue, publish, file-record extraction or refetch failing
or succeeding — the middleware returns the CMS operation's result and never
raises. -/
theorem mw_preserves_result (cfg : MwConfig) (flags : MwFlags) (env : MwEnv)
    (ctx : MwCtx) (res : NR) : (runMw cfg flags env ctx res).1 = res := by
  unfold runMw
  repeat' first
  | rfl
  | split

/-- C6: when the loop-prevention flag matching the mode is set, the
middleware persists nothing at all: on a replica with fromMaster no version
bump and no outbound queue entry (and no push triggered), on the master with
fromShip no edit log, no publish and no broadcast-queue append. -/
theorem mw_loop_prevention (cfg : MwConfig) (flags : MwFlags) (env : MwEnv)
    (ctx : MwCtx) (res : NR) :
    (cfg.mode = .replica → flags.fromMaster = true →
      (runMw cfg flags env ctx res).2 = Effects.empty) ∧
    (cfg.mode = .master → flags.fromShip = true →
      (runMw cfg flags env ctx res).2 = Effects.empty) := by
  constructor
  · intro hm hf
    unfold runMw
    cases mwPre cfg ctx res with
    | none => rfl
    | some v =>
        obtain ⟨docId, operation, locale, needRefetch⟩ := v
        simp [hm, hf]
  · intro hm hf
    unfold runMw
    cases mwPre cfg ctx res with
    | none => rfl
    | some v =>
        obtain ⟨docId, operation, locale, needRefetch⟩ := v
        simp [hm, hf]

/-- A sample environment in which every service call succeeds. -/
def sampleEnv : MwEnv :=
  ⟨.ok 1, .ok (), .ok .null, .ok (), false, .ok [], .ok [], true, .ok (),
   .ok (), true⟩

/-- A sample create context on an api content type. -/
def sampleCtx : MwCtx :=
  ⟨"create".toList, "api::page.page".toList, none, none⟩

/-- A sample single-document result with a documentId. -/
def sampleRes : NR :=
  .objR ⟨some "d1".toList, none, none, false, 5, .obj .nil⟩

/-- Witness for C6: a replica invocation under fromMaster and a master
invocation under fromShip, each persisting nothing. -/
theorem mw_loop_prevention_witness :
    (runMw ⟨.replica, [], some "ship-1".toList⟩ ⟨true, false⟩ sampleEnv
      sampleCtx sampleRes).2 = Effects.empty ∧
    (runMw ⟨.master, [], none⟩ ⟨false, true⟩ sampleEnv
      sampleCtx sampleRes).2 = Effects.empty :=
  ⟨(mw_loop_prevention _ _ _ _ _).1 rfl rfl,
   (mw_loop_prevention _ _ _ _ _).2 rfl rfl⟩

/-! ## C9: sensitive-field redaction -/

mutual

/-- Does the payload contain a sensitive key at any nesting depth? -/
def hasSensitiveKey : Json → Bool
  | .arr l => hasSensitiveKeyArr l
  | .obj o => hasSensitiveKeyObj o
  | _ => false

def hasSensitiveKeyArr : JsonArr → Bool
  | .nil => false
  | .cons hd tl => hasSensitiveKey hd || hasSensitiveKeyArr tl

def hasSensitiveKeyObj : JsonObj → Bool
  | .nil => false
  | .cons k v tl =>
      decide (k ∈ SENSITIVE_FIELDS) || hasSensitiveKey v || hasSensitiveKeyObj tl

end

mutual

/-- Every field with a sensitive key, at any nesting depth, holds the
literal string [REDACTED]. -/
def sensRedacted : Json → Bool
  | .arr l => sensRedactedArr l
  | .obj o => sensRedactedObj o
  | _ => true

def sensRedactedArr : JsonArr → Bool
  | .nil => true
  | .cons hd tl => sensRedacted hd && sensRedactedArr tl

def sensRedactedObj : JsonObj → Bool
  | .nil => true
  | .cons k v tl =>
      (if k ∈ SENSITIVE_FIELDS then decide (v = .str "[REDACTED]".toList)
       else sensRedacted v) && sensRedactedObj tl

end

mutual

theorem stripSensitiveData_redacts (j : Json) :
    sensRedacted (stripSensitiveData j) = true := by
  cases j with
  | null => rfl
  | bool b => rfl
  | num n => rfl
  | str s => rfl
  | arr l => simpa [stripSensitiveData, sensRedacted] using
      stripSensitiveDataArr_redacts l
  | obj o => simpa [stripSensitiveData, sensRedacted] using
      stripSensitiveDataObj_redacts o

theorem stripSensitiveDataArr_redacts (l : JsonArr) :
    sensRedactedArr (stripSensitiveDataArr l) = true := by
  cases l with
  | nil => rfl
  | cons hd tl =>
      simp [stripSensitiveDataArr, sensRedactedArr,
        stripSensitiveData_redacts hd, stripSensitiveDataArr_redacts tl]

theorem stripSensitiveDataObj_redacts (o : JsonObj) :
    sensRedactedObj (stripSensitiveDataObj o) = true := by
  cases o with
  | nil => rfl
  | cons k v tl =>
      by_cases hk : k ∈ SENSITIVE_FIELDS
      · simp [stripSensitiveDataObj, sensRedactedObj, hk,
          stripSensitiveDataObj_redacts tl]
      · simp [stripSensitiveDataObj, sensRedactedObj, hk,
          stripSensitiveData_redacts v, stripSensitiveDataObj_redacts tl]

end

/-- C9 counterexample: redaction is by masking, not omission — stripping
a payload with a password field leaves the password key in place (bound to
the [REDACTED] string), so the produced payload does contain a sensitive
field. -/
theorem stripSensitiveData_keeps_sensitive_keys :
    stripSensitiveData
        (.obj (.cons "password".toList (.str "hunter2".toList) .nil)) =
      .obj (.cons "password".toList (.str "[REDACTED]".toList) .nil) ∧
    hasSensitiveKey
        (stripSensitiveData
          (.obj (.cons "password".toList (.str "hunter2".toList) .nil))) =
      true := by
  constructor <;> rfl

/-- C9 amended: the producer redacts sensitive fields by masking rather
than omission — after stripSensitiveData every sensitive field at every
nesting depth holds the literal string [REDACTED], so no sensitive value
survives, but the keys themselves remain. -/
theorem stripSensitiveData_masks_all (j : Json) :
    sensRedacted (stripSensitiveData j) = true :=
  stripSensitiveData_redacts j

/-! ## C3: conflict detection -/

theorem JsonObj.lookup_isSome_iff :
    (o : JsonObj) → ∀ k, ((o.lookup k).isSome = true ↔ k ∈ o.keys)
  | .nil, k => by simp [JsonObj.lookup, JsonObj.keys]
  | .cons k' v tl, k => by
      by_cases h : k' = k
      · subst h; simp [JsonObj.lookup, JsonObj.keys]
      · simp [JsonObj.lookup, JsonObj.keys, h, Ne.symm h,
          JsonObj.lookup_isSome_iff tl k]

theorem mem_jsonKeys_iff (d : Json) (k : JStr) :
    k ∈ jsonKeys d ↔ (jsonGet d k).isSome = true := by
  cases d <;> simp [jsonKeys, jsonGet, JsonObj.lookup_isSome_iff]

/-- Some non-reserved field, present on at least one side, differs between
the two payloads (the compared payloads are data when a truthy data field is
present, the object itself otherwise). -/
def nonReservedDiff (localE remoteE : Json) : Prop :=
  ∃ k, k ∉ excludeFields ∧
    (k ∈ jsonKeys (dataOrSelf localE) ∨ k ∈ jsonKeys (dataOrSelf remoteE)) ∧
    jsonGet (dataOrSelf localE) k ≠ jsonGet (dataOrSelf remoteE) k

/-- C3 counterexample: versions differ and the field title exists only on
the local side; the claim predicts a structural conflict, but detectConflict
reports the conflict as direct (it never reports structural). -/
theorem detectConflict_one_sided_is_direct :
    detectConflict
        (.obj (.cons "syncVersion".toList (.num 1)
          (.cons "title".toList (.str "A".toList) .nil)))
        (.obj (.cons "syncVersion".toList (.num 2) .nil)) =
      ⟨true, some ["title".toList], some .direct⟩ ∧
    (detectConflict
        (.obj (.cons "syncVersion".toList (.num 1)
          (.cons "title".toList (.str "A".toList) .nil)))
        (.obj (.cons "syncVersion".toList (.num 2) .nil))).conflictType ≠
      some ConflictType.structural := by
  constructor <;> decide

/-- C3 amended: detectConflict compares syncVersion first and reports no
conflict when the versions are equal (or an input is null); it reports a
conflict exactly when the versions differ and some non-reserved field —
common with differing stringified values, or present on one side only —
distinguishes the payloads; and every reported conflict has kind direct
(structural is never reported, one-sided fields are folded into the direct
conflict set). -/
theorem detectConflict_characterization (localE remoteE : Json) :
    ((getSyncVersion localE = getSyncVersion remoteE ∨ localE = .null ∨
        remoteE = .null) →
      (detectConflict localE remoteE).hasConflict = false) ∧
    ((detectConflict localE remoteE).hasConflict = true ↔
      localE ≠ .null ∧ remoteE ≠ .null ∧
      getSyncVersion localE ≠ getSyncVersion remoteE ∧
      nonReservedDiff localE remoteE) ∧
    ((detectConflict localE remoteE).hasConflict = true →
      (detectConflict localE remoteE).conflictType = some .direct) := by
  by_cases hnull : localE = .null ∨ remoteE = .null
  · have hr : detectConflict localE remoteE = ⟨false, none, none⟩ := by
      unfold detectConflict
      rw [if_pos hnull]
    refine ⟨fun _ => by rw [hr], ?_, fun h => by simp [hr] at h⟩
    rw [hr]
    constructor
    · intro h
      exact absurd h (by simp)
    · rintro ⟨h1, h2, -, -⟩
      rcases hnull with h | h
      · exact (h1 h).elim
      · exact (h2 h).elim
  · by_cases hv : getSyncVersion localE = getSyncVersion remoteE
    · have hr : detectConflict localE remoteE = ⟨false, none, none⟩ := by
        unfold detectConflict
        rw [if_neg hnull, if_pos hv]
      refine ⟨fun _ => by rw [hr], ?_, fun h => by simp [hr] at h⟩
      rw [hr]
      constructor
      · intro h
        exact absurd h (by simp)
      · rintro ⟨-, -, h3, -⟩
        exact (h3 hv).elim
    · -- main branch: versions differ, neither input null
      have hn1 : localE ≠ .null := fun h => hnull (Or.inl h)
      have hn2 : remoteE ≠ .null := fun h => hnull (Or.inr h)
      have hres : detectConflict localE remoteE =
          (if (((jsonKeys (dataOrSelf localE)).filter
                  (fun k => k ∉ excludeFields)).filter (fun k =>
                    k ∈ ((jsonKeys (dataOrSelf remoteE)).filter
                      (fun k => k ∉ excludeFields)) &&
                    jsonGet (dataOrSelf localE) k !=
                      jsonGet (dataOrSelf remoteE) k) ++
                ((jsonKeys (dataOrSelf localE)).filter
                  (fun k => k ∉ excludeFields)).filter (fun k =>
                    k ∉ ((jsonKeys (dataOrSelf remoteE)).filter
                      (fun k => k ∉ excludeFields))) ++
                ((jsonKeys (dataOrSelf remoteE)).filter
                  (fun k => k ∉ excludeFields)).filter (fun k =>
                    k ∉ ((jsonKeys (dataOrSelf localE)).filter
                      (fun k => k ∉ excludeFields)))).isEmpty
           then ⟨false, none, none⟩
           else ⟨true, some ((((jsonKeys (dataOrSelf localE)).filter
                  (fun k => k ∉ excludeFields)).filter (fun k =>
                    k ∈ ((jsonKeys (dataOrSelf remoteE)).filter
                      (fun k => k ∉ excludeFields)) &&
                    jsonGet (dataOrSelf localE) k !=
                      jsonGet (dataOrSelf remoteE) k) ++
                ((jsonKeys (dataOrSelf localE)).filter
                  (fun k => k ∉ excludeFields)).filter (fun k =>
                    k ∉ ((jsonKeys (dataOrSelf remoteE)).filter
                      (fun k => k ∉ excludeFields))) ++
                ((jsonKeys (dataOrSelf remoteE)).filter
                  (fun k => k ∉ excludeFields)).filter (fun k =>
                    k ∉ ((jsonKeys (dataOrSelf localE)).filter
                      (fun k => k ∉ excludeFields))))),
                some .direct⟩) := by
        unfold detectConflict
        rw [if_neg hnull, if_neg hv]
      set ld := dataOrSelf localE with hld
      set rd := dataOrSelf remoteE with hrd
      set lk := (jsonKeys ld).filter (fun k => k ∉ excludeFields) with hlk
      set rk := (jsonKeys rd).filter (fun k => k ∉ excludeFields) with hrk
      set commonDiff := lk.filter (fun k =>
        k ∈ rk && jsonGet ld k != jsonGet rd k) with hcd
      set onlyL := lk.filter (fun k => k ∉ rk) with hol
      set onlyR := rk.filter (fun k => k ∉ lk) with hor
      set allFields := commonDiff ++ onlyL ++ onlyR with haf
      have key_iff : ∀ k, k ∈ allFields ↔
          (k ∉ excludeFields ∧ (k ∈ jsonKeys ld ∨ k ∈ jsonKeys rd) ∧
            jsonGet ld k ≠ jsonGet rd k) := by
        intro k
        constructor
        · intro hk
          rcases List.mem_append.1 hk with hk' | hkR
          · rcases List.mem_append.1 hk' with hkC | hkL
            · rw [hcd] at hkC
              obtain ⟨hklk, hk2⟩ := List.mem_filter.1 hkC
              obtain ⟨hkeys, hexcl⟩ := List.mem_filter.1 hklk
              simp only [Bool.and_eq_true, bne_iff_ne, decide_eq_true_eq]
                at hk2 hexcl
              exact ⟨hexcl, Or.inl hkeys, hk2.2⟩
            · rw [hol] at hkL
              obtain ⟨hklk, hk2⟩ := List.mem_filter.1 hkL
              obtain ⟨hkeys, hexcl⟩ := List.mem_filter.1 hklk
              simp only [decide_eq_true_eq] at hk2 hexcl
              refine ⟨hexcl, Or.inl hkeys, ?_⟩
              have hsome : (jsonGet ld k).isSome = true :=
                (mem_jsonKeys_iff ld k).1 hkeys
              have hnone : jsonGet rd k = none := by
                by_contra hco
                have : (jsonGet rd k).isSome = true := by
                  cases hjg : jsonGet rd k with
                  | none => exact absurd hjg hco
                  | some _ => rfl
                have hkr : k ∈ rk := by
                  rw [hrk]
                  exact List.mem_filter.2 ⟨(mem_jsonKeys_iff rd k).2 this,
                    by simpa using hexcl⟩
                exact hk2 hkr
              intro he
              rw [he, hnone] at hsome
              simp at hsome
          · rw [hor] at hkR
            obtain ⟨hkrk, hk2⟩ := List.mem_filter.1 hkR
            obtain ⟨hkeys, hexcl⟩ := List.mem_filter.1 hkrk
            simp only [decide_eq_true_eq] at hk2 hexcl
            refine ⟨hexcl, Or.inr hkeys, ?_⟩
            have hsome : (jsonGet rd k).isSome = true :=
              (mem_jsonKeys_iff rd k).1 hkeys
            have hnone : jsonGet ld k = none := by
              by_contra hco
              have : (jsonGet ld k).isSome = true := by
                cases hjg : jsonGet ld k with
                | none => exact absurd hjg hco
                | some _ => rfl
              have hkl : k ∈ lk := by
                rw [hlk]
                exact List.mem_filter.2 ⟨(mem_jsonKeys_iff ld k).2 this,
                  by simpa using hexcl⟩
              exact hk2 hkl
            intro he
            rw [hnone] at he
            rw [← he] at hsome
            simp at hsome
        · rintro ⟨hexcl, hmem, hne⟩
          by_cases hinL : k ∈ jsonKeys ld <;> by_cases hinR : k ∈ jsonKeys rd
          · refine List.mem_append.2 (Or.inl (List.mem_append.2 (Or.inl ?_)))
            rw [hcd]
            refine List.mem_filter.2 ⟨?_, ?_⟩
            · rw [hlk]; exact List.mem_filter.2 ⟨hinL, by simpa using hexcl⟩
            · have hkr : k ∈ rk := by
                rw [hrk]; exact List.mem_filter.2 ⟨hinR, by simpa using hexcl⟩
              simp [hkr, hne]
          · refine List.mem_append.2 (Or.inl (List.mem_append.2 (Or.inr ?_)))
            rw [hol]
            refine List.mem_filter.2 ⟨?_, ?_⟩
            · rw [hlk]; exact List.mem_filter.2 ⟨hinL, by simpa using hexcl⟩
            · have : k ∉ rk := by
                rw [hrk]
                intro hkr
                exact hinR (List.mem_filter.1 hkr).1
              simpa using this
          · refine List.mem_append.2 (Or.inr ?_)
            rw [hor]
            refine List.mem_filter.2 ⟨?_, ?_⟩
            · rw [hrk]; exact List.mem_filter.2 ⟨hinR, by simpa using hexcl⟩
            · have : k ∉ lk := by
                rw [hlk]
                intro hkl
                exact hinL (List.mem_filter.1 hkl).1
              simpa using this
          · exfalso
            rcases hmem with h | h <;> [exact hinL h; exact hinR h]
      by_cases hemp : allFields.isEmpty
  -- the two outcomes of the non-empty test, finished through key_iff
      · rw [hres, if_pos hemp]
        refine ⟨fun _ => rfl, ?_, fun h => by simp at h⟩
        constructor
        · intro h
          exact absurd h (by simp)
        · rintro ⟨-, -, -, k, hk1, hk2, hk3⟩
          have hkin : k ∈ allFields := (key_iff k).2 ⟨hk1, hk2, hk3⟩
          rw [List.isEmpty_iff] at hemp
          rw [hemp] at hkin
          cases hkin
      · rw [hres, if_neg hemp]
        refine ⟨fun h => ?_, ?_, fun _ => rfl⟩
        · rcases h with h | h | h
          · exact (hv h).elim
          · exact (hn1 h).elim
          · exact (hn2 h).elim
        constructor
        · intro _
          refine ⟨hn1, hn2, hv, ?_⟩
          rw [List.isEmpty_iff] at hemp
          obtain ⟨k, hk⟩ := List.exists_mem_of_ne_nil allFields hemp
          unfold nonReservedDiff
          rw [← hld, ← hrd]
          exact ⟨k, (key_iff k).1 hk⟩
        · intro _
          rfl

/-- Witness for C3: equal versions yield no conflict, and a pair with a
common differing title field yields a direct conflict. -/
theorem detectConflict_characterization_witness :
    (detectConflict (.obj (.cons "syncVersion".toList (.num 3) .nil))
        (.obj (.cons "syncVersion".toList (.num 3) .nil))).hasConflict =
      false ∧
    (detectConflict
        (.obj (.cons "syncVersion".toList (.num 1)
          (.cons "title".toList (.str "A".toList) .nil)))
        (.obj (.cons "syncVersion".toList (.num 2)
          (.cons "title".toList (.str "B".toList) .nil)))).conflictType =
      some .direct :=
  ⟨(detectConflict_characterization _ _).1 (Or.inl rfl),
   (detectConflict_characterization _ _).2.2 (by decide)⟩

/-! ## C7: ship liveness -/

/-- Setting a session offline. -/
def clearOnline (s : Session) : Session := { s with isOnline := false }

/-- The staleness test of markOfflineShips. -/
def staleP (now : Int) (s : Session) : Bool :=
  now - s.lastSeenAt ≥ effThreshold s.onlineThreshold

/-- Row ids of the stale sessions in a list. -/
def staleRids (now : Int) (l : List Session) : List Nat :=
  (l.filter (staleP now)).map (fun s => s.rid)

theorem clearOnline_idem (x : Session) :
    clearOnline (clearOnline x) = clearOnline x := rfl

/-- The update loop of markOfflineShips acts pointwise: a row ends up
offline exactly when some stale session of the scanned list carries its row
id. -/
theorem foldUpd_eq_map (now : Int) :
    ∀ (l acc : List Session),
      l.foldl (fun acc s =>
        if now - s.lastSeenAt ≥ effThreshold s.onlineThreshold then
          updateSessionById acc s.rid (fun r => { r with isOnline := false })
        else acc) acc =
      acc.map (fun x =>
        if x.rid ∈ staleRids now l then clearOnline x else x) := by
  intro l
  induction l with
  | nil =>
      intro acc
      simp [staleRids]
  | cons s l' ih =>
      intro acc
      by_cases hs : staleP now s
      · have hs' : now - s.lastSeenAt ≥ effThreshold s.onlineThreshold := by
          simpa [staleP] using hs
        rw [List.foldl_cons, if_pos hs']
        rw [ih]
        unfold updateSessionById
        rw [List.map_map]
        refine List.map_congr_left ?_
        intro x _
        simp only [Function.comp]
        have hsr : staleRids now (s :: l') = s.rid :: staleRids now l' := by
          simp [staleRids, List.filter_cons, hs]
        rw [hsr]
        by_cases hx : x.rid = s.rid
        · simp [clearOnline, hx]
        · simp [clearOnline, hx]
      · have hs' : ¬(now - s.lastSeenAt ≥ effThreshold s.onlineThreshold) := by
          simpa [staleP] using hs
        rw [List.foldl_cons, if_neg hs']
        rw [ih]
        have hsr : staleRids now (s :: l') = staleRids now l' := by
          simp [staleRids, List.filter_cons, hs]
        rw [hsr]

/-- find? commutes with a map that preserves the predicate. -/
theorem find?_map_pres {α : Type} (p : α → Bool) (g : α → α)
    (hp : ∀ x, p (g x) = p x) :
    ∀ (l : List α) (a : α),
      l.find? p = some a → (l.map g).find? p = some (g a) := by
  intro l
  induction l with
  | nil => intro a h; cases h
  | cons x tl ih =>
      intro a h
      by_cases hx : p x
      · rw [List.find?_cons_of_pos _ hx] at h
        cases h
        rw [List.map_cons, List.find?_cons_of_pos _ (by rw [hp]; exact hx)]
      · rw [List.find?_cons_of_neg _ hx] at h
        rw [List.map_cons, List.find?_cons_of_neg _ (by rw [hp]; exact hx)]
        exact ih a h

/-- C7: a peer without a stored session is reported offline (and nothing is
written); a stored peer is reported online exactly when now − lastSeenAt is
below its threshold (300000 ms = 300 s by default when unset); the computed
flag is persisted — the stored row afterwards carries exactly the reported
value, with the rest of the session unchanged; and after a markOfflineShips
pass every stale session reads isOnline = false. -/
theorem shipTracker_liveness (now : Int) (sid : JStr) (tbl : List Session) :
    (tbl.find? (fun s => s.shipId = sid) = none →
      isShipOnline now sid tbl = (false, tbl)) ∧
    (∀ s, tbl.find? (fun s => s.shipId = sid) = some s →
      ((isShipOnline now sid tbl).1 = true ↔
        now - s.lastSeenAt < effThreshold s.onlineThreshold)) ∧
    (∀ s, tbl.find? (fun s => s.shipId = sid) = some s →
      ∃ s', ((isShipOnline now sid tbl).2).find? (fun x => x.shipId = sid) =
          some s' ∧
        s'.isOnline = (isShipOnline now sid tbl).1 ∧
        s'.lastSeenAt = s.lastSeenAt ∧
        s'.onlineThreshold = s.onlineThreshold ∧
        s'.shipId = s.shipId ∧ s'.rid = s.rid) ∧
    effThreshold none = 300000 ∧
    (∀ s' ∈ markOfflineShips now tbl,
      now - s'.lastSeenAt ≥ effThreshold s'.onlineThreshold →
        s'.isOnline = false) := by
  refine ⟨?_, ?_, ?_, rfl, ?_⟩
  · intro h
    simp only [isShipOnline, h]
  · intro s h
    simp only [isShipOnline, h]
    by_cases hio : s.isOnline ≠ decide (now - s.lastSeenAt < effThreshold s.onlineThreshold)
    · rw [if_pos hio]
      simp only [decide_eq_true_eq]
    · rw [if_neg hio]
      simp only [decide_eq_true_eq]
  · intro s h
    simp only [isShipOnline, h]
    by_cases hio : s.isOnline ≠ decide (now - s.lastSeenAt < effThreshold s.onlineThreshold)
    · rw [if_pos hio]
      obtain ⟨s', hfind, hs'⟩ : ∃ s',
          List.find? (fun x => x.shipId = sid)
            (updateSessionById tbl s.rid (fun r =>
              { r with isOnline := decide (now - s.lastSeenAt < effThreshold s.onlineThreshold) })) =
            some s' ∧
          s' = { s with isOnline := decide (now - s.lastSeenAt < effThreshold s.onlineThreshold) } := by
        unfold updateSessionById
        refine ⟨_, find?_map_pres _ _
          (fun x => by by_cases hx : x.rid = s.rid <;> simp [hx]) tbl s h, ?_⟩
        simp
      rw [hs'] at hfind
      exact ⟨_, hfind, rfl, rfl, rfl, rfl, rfl⟩
    · rw [if_neg hio]
      rw [not_not] at hio
      exact ⟨s, h, hio, rfl, rfl, rfl, rfl⟩
  · intro s' hmem hstale
    unfold markOfflineShips at hmem
    rw [foldUpd_eq_map] at hmem
    obtain ⟨x, hx, hxe⟩ := List.mem_map.1 hmem
    by_cases hxm : x.rid ∈ staleRids now (tbl.filter (fun s => s.isOnline))
    · rw [if_pos hxm] at hxe
      rw [← hxe]
      rfl
    · rw [if_neg hxm] at hxe
      subst hxe
      by_cases hon : x.isOnline
      · exfalso
        apply hxm
        unfold staleRids
        refine List.mem_map.2 ⟨x, ?_, rfl⟩
        refine List.mem_filter.2 ⟨List.mem_filter.2 ⟨hx, by simpa using hon⟩, ?_⟩
        simpa [staleP] using hstale
      · simpa using hon

/-- Witness for C7 at a one-session table whose peer went stale. -/
theorem shipTracker_liveness_witness :
    (isShipOnline 400000 "zz".toList [⟨0, "s1".toList, 1000, true, none⟩] =
      (false, [⟨0, "s1".toList, 1000, true, none⟩])) ∧
    ((isShipOnline 400000 "s1".toList
        [⟨0, "s1".toList, 1000, true, none⟩]).1 = true ↔
      (400000 : Int) - 1000 < effThreshold none) ∧
    (∃ s', ((isShipOnline 400000 "s1".toList
          [⟨0, "s1".toList, 1000, true, none⟩]).2).find?
            (fun x => x.shipId = "s1".toList) = some s' ∧
        s'.isOnline = (isShipOnline 400000 "s1".toList
          [⟨0, "s1".toList, 1000, true, none⟩]).1 ∧
        s'.lastSeenAt = 1000 ∧ s'.onlineThreshold = none ∧
        s'.shipId = "s1".toList ∧ s'.rid = 0) ∧
    (⟨0, "s1".toList, 1000, false, none⟩ : Session).isOnline = false :=
  ⟨(shipTracker_liveness 400000 "zz".toList _).1 (by decide),
   (shipTracker_liveness 400000 "s1".toList _).2.1
     ⟨0, "s1".toList, 1000, true, none⟩ (by decide),
   (shipTracker_liveness 400000 "s1".toList _).2.2.1
     ⟨0, "s1".toList, 1000, true, none⟩ (by decide),
   (shipTracker_liveness 400000 "s1".toList
       [⟨0, "s1".toList, 1000, true, none⟩]).2.2.2.2
     ⟨0, "s1".toList, 1000, false, none⟩ (by decide) (by decide)⟩

/-! ## C10: manual conflict resolution -/

/-- C10: resolveConflict raises exactly when the conflict id is unknown,
the conflict is already resolved, or the resolution is not one of
keep_local / keep_remote / merge; and every raising path happens before any
write, so the state (CMS entities, conflict log, metadata) is returned
untouched. -/
theorem resolveConflict_error_iff (now : Int) (cid : Nat) (res : JStr)
    (md : Option Json) (rb : Option Int) (st : SyncState) :
    ((resolveConflict now cid res md rb st).2.isSome = true ↔
      (st.conflicts.find? (fun c => c.rid = cid) = none ∨
       (∃ c, st.conflicts.find? (fun c => c.rid = cid) = some c ∧
         c.status = .resolved) ∨
       (res ≠ "keep_local".toList ∧ res ≠ "keep_remote".toList ∧
        res ≠ "merge".toList))) ∧
    ((resolveConflict now cid res md rb st).2.isSome = true →
      (resolveConflict now cid res md rb st).1 = st) := by
  have hnone_iff : ∀ c : ConflictRow, resolveFinalData c res md = none ↔
      (res ≠ "keep_local".toList ∧ res ≠ "keep_remote".toList ∧
       res ≠ "merge".toList) := by
    intro c
    unfold resolveFinalData
    by_cases h1 : res = "keep_local".toList
    · simp [h1]
    · by_cases h2 : res = "keep_remote".toList
      · simp [h1, h2]
      · by_cases h3 : res = "merge".toList
        · simp [h1, h2, h3]
        · rw [if_neg h1, if_neg h2, if_neg h3]
          exact iff_of_true rfl ⟨h1, h2, h3⟩
  unfold resolveConflict
  split
  · next hf =>
      exact ⟨⟨fun _ => Or.inl hf, fun _ => rfl⟩, fun _ => rfl⟩
  · next c hf =>
      split
      · next hs =>
          exact ⟨⟨fun _ => Or.inr (Or.inl ⟨c, hf, hs⟩), fun _ => rfl⟩,
            fun _ => rfl⟩
      · next hs =>
          split
          · next hm =>
              exact ⟨⟨fun _ => Or.inr (Or.inr ((hnone_iff c).1 hm)),
                fun _ => rfl⟩, fun _ => rfl⟩
          · next fd hm =>
              refine ⟨⟨fun habs => by simp at habs, ?_⟩,
                fun habs => by simp at habs⟩
              rintro (h | ⟨c', hc', hcs⟩ | hbad)
              · rw [hf] at h
                cases h
              · rw [hf] at hc'
                injection hc' with he
                subst he
                exact (hs hcs).elim
              · have hcontra := (hnone_iff c).2 hbad
                rw [hm] at hcontra
                cases hcontra

/-- Witness for C10: resolving an unknown conflict id on an empty state
errors and leaves the state unchanged, while a valid resolution of a
pending conflict does not error. -/
theorem resolveConflict_error_iff_witness :
    ((resolveConflict 0 7 "keep_local".toList none none
        ⟨[], [], [], 0, 0⟩).2.isSome = true) ∧
    ((resolveConflict 0 7 "keep_local".toList none none
        ⟨[], [], [], 0, 0⟩).1 = ⟨[], [], [], 0, 0⟩) ∧
    ((resolveConflict 0 0 "bogus".toList none none
        ⟨[], [], [⟨0, "api::p.p".toList, 1, .null, .null, [], .direct,
          .pending, none, none, none, none⟩], 1, 0⟩).2.isSome = true) :=
  ⟨(resolveConflict_error_iff 0 7 "keep_local".toList none none
      ⟨[], [], [], 0, 0⟩).1.2 (Or.inl (by decide)),
   (resolveConflict_error_iff 0 7 "keep_local".toList none none
      ⟨[], [], [], 0, 0⟩).2
     ((resolveConflict_error_iff 0 7 "keep_local".toList none none
        ⟨[], [], [], 0, 0⟩).1.2 (Or.inl (by decide))),
   (resolveConflict_error_iff 0 0 "bogus".toList none none _).1.2
     (Or.inr (Or.inr (by decide)))⟩

/-! ## C2: the remote conflict path -/

/-- Number of pending conflict rows for one (contentType, entityId). -/
def pendingConflictFor (tbl : List ConflictRow) (ct : JStr) (eid : Int) : Nat :=
  tbl.countP (fun c =>
    c.contentType = ct && c.entityId = eid && c.status = CStatus.pending)

/-- The ConflictLog invariant: at most one pending row per key. -/
def AtMostOnePendingConflict (tbl : List ConflictRow) : Prop :=
  ∀ ct eid, pendingConflictFor tbl ct eid ≤ 1

/-- flagConflict keeps the at-most-one-pending invariant, leaves a pending
row for the flagged key in place, and touches neither the entities nor the
metadata. -/
theorem flagConflict_spec (ct : JStr) (eid : Int) (ld rd : Json)
    (fields : List JStr) (ctype : ConflictType) (st : SyncState)
    (hinv : AtMostOnePendingConflict st.conflicts) :
    AtMostOnePendingConflict (flagConflict ct eid ld rd fields ctype st).conflicts ∧
    (∃ c ∈ (flagConflict ct eid ld rd fields ctype st).conflicts,
      c.contentType = ct ∧ c.entityId = eid ∧ c.status = CStatus.pending) ∧
    (flagConflict ct eid ld rd fields ctype st).entities = st.entities ∧
    (flagConflict ct eid ld rd fields ctype st).meta = st.meta := by
  unfold flagConflict
  cases hf : st.conflicts.find? (fun c =>
      c.contentType = ct && c.entityId = eid && c.status = CStatus.pending) with
  | some ex =>
      have hpred := List.find?_some hf
      simp only [Bool.and_eq_true, decide_eq_true_eq] at hpred
      obtain ⟨⟨hpc, hpe⟩, hps⟩ := hpred
      refine ⟨?_, ?_, rfl, rfl⟩
      · intro ct' eid'
        unfold pendingConflictFor updateConflictById
        rw [List.countP_map]
        have hcg : ∀ c ∈ st.conflicts,
            ((fun c => c.contentType = ct' && c.entityId = eid' &&
                c.status = CStatus.pending) ∘
              (fun c => if c.rid = ex.rid then { c with localData := ld, remoteData := rd, conflictingFields := fields, conflictType := ctype } else c)) c =
            (fun c => c.contentType = ct' && c.entityId = eid' &&
              c.status = CStatus.pending) c := by
          intro c _
          by_cases hc : c.rid = ex.rid <;> simp [hc]
        rw [List.countP_congr (fun x hx => by rw [hcg x hx])]
        exact hinv ct' eid'
      · refine ⟨{ ex with localData := ld, remoteData := rd, conflictingFields := fields, conflictType := ctype }, ?_, hpc, hpe, hps⟩
        unfold updateConflictById
        have hmem := List.mem_of_find?_eq_some hf
        have := List.mem_map_of_mem
          (fun c => if c.rid = ex.rid then { c with localData := ld, remoteData := rd, conflictingFields := fields, conflictType := ctype } else c)
          hmem
        simpa using this
  | none =>
      refine ⟨?_, ?_, rfl, rfl⟩
      · intro ct' eid'
        unfold pendingConflictFor
        rw [List.countP_append]
        by_cases hk : ct' = ct ∧ eid' = eid
        · obtain ⟨hk1, hk2⟩ := hk
          subst hk1
          subst hk2
          have hzero : st.conflicts.countP (fun c =>
              c.contentType = ct' && c.entityId = eid' &&
              c.status = CStatus.pending) = 0 := by
            rw [List.countP_eq_zero]
            intro c hc
            have := List.find?_eq_none.1 hf c hc
            simpa using this
          rw [hzero]
          simp [List.countP_cons]
        · have hone : List.countP (fun c =>
              c.contentType = ct' && c.entityId = eid' &&
              c.status = CStatus.pending)
              [({ rid := st.nextRid, contentType := ct, entityId := eid, localData := ld, remoteData := rd, conflictingFields := fields, conflictType := ctype, status := .pending, resolution := none, mergedData := none, resolvedAt := none, resolvedBy := none } : ConflictRow)] = 0 := by
            rw [List.countP_eq_zero]
            intro c hc
            rw [List.mem_singleton] at hc
            subst hc
            simp only [Bool.and_eq_true, decide_eq_true_eq, not_and]
            intro hand _
            exact absurd ⟨hand.1.symm, hand.2.symm⟩ hk
          rw [hone]
          have := hinv ct' eid'
          unfold pendingConflictFor at this
          omega
      · refine ⟨_, List.mem_append_right _ (List.mem_singleton_self _),
          rfl, rfl, rfl⟩

/-- C2: a remote change against an existing entity with existing metadata
that detectConflict flags is not applied: the conflict log gains (or
refreshes) a pending row for the key while keeping at most one pending row
per key, the metadata row is set to syncStatus conflict with the flag
raised, and the CMS entities are left completely unchanged. -/
theorem applyChange_remote_conflict (ctypes : List JStr) (now : Int)
    (ch : Change) (st : SyncState) (e : EntityRow) (m : MetaRow)
    (hct : ch.contentType ∈ ctypes)
    (he : findEntity st ch.contentType ch.entityId = some e)
    (hm : findMeta st.meta ch.contentType ch.entityId = some m)
    (hconf : (detectConflict
        (.obj (e.data.setKey "syncVersion".toList (.num m.syncVersion)))
        (.obj ((jsonFieldsOf ch.data).setKey "syncVersion".toList
          (.num ch.version)))).hasConflict = true)
    (hinv : AtMostOnePendingConflict st.conflicts) :
    (applyChange ctypes now ch .fromRemote st).1 = true ∧
    (applyChange ctypes now ch .fromRemote st).2.entities = st.entities ∧
    AtMostOnePendingConflict
      (applyChange ctypes now ch .fromRemote st).2.conflicts ∧
    (∃ c ∈ (applyChange ctypes now ch .fromRemote st).2.conflicts,
      c.contentType = ch.contentType ∧ c.entityId = ch.entityId ∧
      c.status = CStatus.pending) ∧
    (∃ m', findMeta (applyChange ctypes now ch .fromRemote st).2.meta
        ch.contentType ch.entityId = some m' ∧
      m'.syncStatus = SyncStatus.conflict ∧ m'.conflictFlag = true) := by
  obtain ⟨finv, ⟨c, hcmem, hcp⟩, hent, hmeta⟩ :=
    flagConflict_spec ch.contentType ch.entityId (.obj e.data) ch.data
      (((detectConflict
        (.obj (e.data.setKey "syncVersion".toList (.num m.syncVersion)))
        (.obj ((jsonFieldsOf ch.data).setKey "syncVersion".toList
          (.num ch.version)))).conflictingFields).getD [])
      (((detectConflict
        (.obj (e.data.setKey "syncVersion".toList (.num m.syncVersion)))
        (.obj ((jsonFieldsOf ch.data).setKey "syncVersion".toList
          (.num ch.version)))).conflictType).getD .direct)
      st hinv
  have happ : applyChange ctypes now ch .fromRemote st =
      (true,
        { flagConflict ch.contentType ch.entityId (.obj e.data) ch.data
            (((detectConflict
              (.obj (e.data.setKey "syncVersion".toList (.num m.syncVersion)))
              (.obj ((jsonFieldsOf ch.data).setKey "syncVersion".toList
                (.num ch.version)))).conflictingFields).getD [])
            (((detectConflict
              (.obj (e.data.setKey "syncVersion".toList (.num m.syncVersion)))
              (.obj ((jsonFieldsOf ch.data).setKey "syncVersion".toList
                (.num ch.version)))).conflictType).getD .direct)
            st with
          meta := updateMetaWhere
            (flagConflict ch.contentType ch.entityId (.obj e.data) ch.data
              (((detectConflict
                (.obj (e.data.setKey "syncVersion".toList (.num m.syncVersion)))
                (.obj ((jsonFieldsOf ch.data).setKey "syncVersion".toList
                  (.num ch.version)))).conflictingFields).getD [])
              (((detectConflict
                (.obj (e.data.setKey "syncVersion".toList (.num m.syncVersion)))
                (.obj ((jsonFieldsOf ch.data).setKey "syncVersion".toList
                  (.num ch.version)))).conflictType).getD .direct)
              st).meta
            ch.contentType ch.entityId
            (fun r => { r with syncStatus := SyncStatus.conflict, conflictFlag := true }) }) := by
    unfold applyChange
    rw [if_neg (not_not_intro hct)]
    simp only [he, hm, hconf, if_pos]
  rw [happ]
  refine ⟨rfl, by simpa using hent, by simpa using finv,
    ⟨c, by simpa using hcmem, hcp⟩, ?_⟩
  have hmw : updateMetaWhere
      (flagConflict ch.contentType ch.entityId (.obj e.data) ch.data
        (((detectConflict
          (.obj (e.data.setKey "syncVersion".toList (.num m.syncVersion)))
          (.obj ((jsonFieldsOf ch.data).setKey "syncVersion".toList
            (.num ch.version)))).conflictingFields).getD [])
        (((detectConflict
          (.obj (e.data.setKey "syncVersion".toList (.num m.syncVersion)))
          (.obj ((jsonFieldsOf ch.data).setKey "syncVersion".toList
            (.num ch.version)))).conflictType).getD .direct)
        st).meta ch.contentType ch.entityId
      (fun r => { r with syncStatus := SyncStatus.conflict, conflictFlag := true }) =
      updateMetaById st.meta m.rid
        (fun r => { r with syncStatus := SyncStatus.conflict, conflictFlag := true }) := by
    rw [hmeta]
    unfold updateMetaWhere
    rw [hm]
  obtain ⟨m', hfind, hm'⟩ : ∃ m',
      List.find? (fun r => r.contentType = ch.contentType &&
        r.entityId = ch.entityId)
        (updateMetaById st.meta m.rid (fun r =>
          { r with syncStatus := SyncStatus.conflict, conflictFlag := true })) =
        some m' ∧
      m' = { m with syncStatus := SyncStatus.conflict, conflictFlag := true } := by
    unfold updateMetaById
    refine ⟨_, find?_map_pres _ _
      (fun x => by by_cases hx : x.rid = m.rid <;> simp [hx]) st.meta m
      (by simpa [findMeta] using hm), ?_⟩
    simp
  refine ⟨m', ?_, by rw [hm'], by rw [hm']⟩
  show findMeta _ ch.contentType ch.entityId = some m'
  simp only [hmw]
  unfold findMeta
  exact hfind

/-- Witness for C2: a remote update of a diverged entity flags a conflict
and leaves the entity untouched. -/
theorem applyChange_remote_conflict_witness :
    (applyChange ["api::a.a".toList] 5
      ⟨"api::a.a".toList, 1,
        .obj (.cons "title".toList (.str "B".toList) .nil),
        "update".toList, 2⟩
      .fromRemote
      ⟨[⟨"api::a.a".toList, 1, .cons "title".toList (.str "A".toList) .nil⟩],
       [⟨0, "api::a.a".toList, 1, 1, "x".toList, .pending, none, false⟩],
       [], 1, 2⟩).1 = true ∧
    (applyChange ["api::a.a".toList] 5
      ⟨"api::a.a".toList, 1,
        .obj (.cons "title".toList (.str "B".toList) .nil),
        "update".toList, 2⟩
      .fromRemote
      ⟨[⟨"api::a.a".toList, 1, .cons "title".toList (.str "A".toList) .nil⟩],
       [⟨0, "api::a.a".toList, 1, 1, "x".toList, .pending, none, false⟩],
       [], 1, 2⟩).2.entities =
      [⟨"api::a.a".toList, 1, .cons "title".toList (.str "A".toList) .nil⟩] := by
  have h := applyChange_remote_conflict ["api::a.a".toList] 5
    ⟨"api::a.a".toList, 1,
      .obj (.cons "title".toList (.str "B".toList) .nil),
      "update".toList, 2⟩
    ⟨[⟨"api::a.a".toList, 1, .cons "title".toList (.str "A".toList) .nil⟩],
     [⟨0, "api::a.a".toList, 1, 1, "x".toList, .pending, none, false⟩],
     [], 1, 2⟩
    ⟨"api::a.a".toList, 1, .cons "title".toList (.str "A".toList) .nil⟩
    ⟨0, "api::a.a".toList, 1, 1, "x".toList, .pending, none, false⟩
    (by decide) (by decide) (by decide) (by decide)
    (fun ct eid => by simp [pendingConflictFor])
  exact ⟨h.1, h.2.1⟩

/-! ## C5: remote update of an absent entity -/

/-- C5 counterexample: a remote update whose target is absent is dropped
without any CMS write, but markSynced still runs afterwards — with a
sync-metadata row present for the absent entity, the row is marked synced
(syncStatus synced, lastSyncedAt stamped) even though nothing was applied. -/
theorem applyChange_dropped_update_marks_synced :
    (applyChange ["api::a.a".toList] 99
      ⟨"api::a.a".toList, 1, .obj .nil, "update".toList, 5⟩ .fromRemote
      ⟨[], [⟨0, "api::a.a".toList, 1, 1, "x".toList, .pending, none, false⟩],
       [], 1, 2⟩).2.entities = [] ∧
    (applyChange ["api::a.a".toList] 99
      ⟨"api::a.a".toList, 1, .obj .nil, "update".toList, 5⟩ .fromRemote
      ⟨[], [⟨0, "api::a.a".toList, 1, 1, "x".toList, .pending, none, false⟩],
       [], 1, 2⟩).2.meta =
      [⟨0, "api::a.a".toList, 1, 1, "x".toList, .synced, some 99, false⟩] := by
  constructor <;> decide

/-- C5 amended: a remote update whose target entity is absent locally is
warned about and dropped — no entity is created or modified and no conflict
is logged, and the function reports no conflict — but markSynced is invoked
on every non-conflict path, so the whole effect of the call is exactly the
unconditional markSynced: an existing metadata row for the absent entity is
marked synced; only when no row exists does the state survive unchanged. -/
theorem applyChange_update_absent (ctypes : List JStr) (now : Int)
    (ch : Change) (st : SyncState)
    (hct : ch.contentType ∈ ctypes)
    (hop : ch.operation = "update".toList)
    (he : findEntity st ch.contentType ch.entityId = none) :
    applyChange ctypes now ch .fromRemote st =
      (false, { st with
        meta := markSynced now ch.contentType ch.entityId st.meta }) := by
  have hcu : (("update".toList : JStr) = "create".toList) = False :=
    eq_false (by decide)
  unfold applyChange applyOperation
  rw [if_neg (not_not_intro hct)]
  simp only [he, hop, hcu, if_false, if_pos, eq_self_iff_true, if_true]

/-- Witness for C5 (amended): the dropped update against a state holding a
metadata row reduces to that row being marked synced. -/
theorem applyChange_update_absent_witness :
    applyChange ["api::a.a".toList] 99
      ⟨"api::a.a".toList, 1, .obj .nil, "update".toList, 5⟩ .fromRemote
      ⟨[], [⟨0, "api::a.a".toList, 1, 1, "x".toList, .pending, none, false⟩],
       [], 1, 2⟩ =
      (false,
        { entities := [],
          meta := markSynced 99 "api::a.a".toList 1
            [⟨0, "api::a.a".toList, 1, 1, "x".toList, .pending, none, false⟩],
          conflicts := [], nextRid := 1, nextEid := 2 }) :=
  applyChange_update_absent ["api::a.a".toList] 99
    ⟨"api::a.a".toList, 1, .obj .nil, "update".toList, 5⟩
    ⟨[], [⟨0, "api::a.a".toList, 1, 1, "x".toList, .pending, none, false⟩],
     [], 1, 2⟩
    (by decide) (by decide) (by decide)

/-! ## C4: replica outbound queue coalescing -/

/-- Number of pending queue rows for one (contentType, contentId, locale). -/
def pendingQueueFor (rows : List SyncQueueEntry) (ct cid : JStr)
    (loc : Option JStr) : Nat :=
  rows.countP (fun r => r.contentType = ct && r.contentId = cid &&
    r.locale = loc && r.status = QStatus.pending)

/-- The queue invariant: at most one pending row per key. -/
def QueueInv (st : QueueState) : Prop :=
  ∀ ct cid loc, pendingQueueFor st.rows ct cid loc ≤ 1

/-- One enqueue step, from any state satisfying the invariant: afterwards
exactly one pending row carries the argument key, that row holds the
argument's operation, data and version with retryCount 0, the table grew by
one row exactly when no pending row for the key existed (else it was
overwritten in place), and the invariant still holds. -/
theorem enqueue_step (now : Int) (o : EnqArg) (st : QueueState)
    (hinv : QueueInv st) :
    QueueInv (enqueue now o st) ∧
    pendingQueueFor (enqueue now o st).rows o.contentType o.contentId
      o.locale = 1 ∧
    (∃ q ∈ (enqueue now o st).rows, q.contentType = o.contentType ∧
      q.contentId = o.contentId ∧ q.locale = o.locale ∧
      q.status = QStatus.pending ∧ q.operation = o.operation ∧
      q.data = o.data ∧ q.localVersion = o.localVersion ∧ q.retryCount = 0) ∧
    ((∃ r, st.rows.find? (fun r => r.contentType = o.contentType &&
        r.contentId = o.contentId && r.locale = o.locale &&
        r.status = QStatus.pending) = some r) →
      (enqueue now o st).rows.length = st.rows.length) ∧
    (st.rows.find? (fun r => r.contentType = o.contentType &&
        r.contentId = o.contentId && r.locale = o.locale &&
        r.status = QStatus.pending) = none →
      (enqueue now o st).rows.length = st.rows.length + 1) := by
  unfold enqueue
  cases hf : st.rows.find? (fun r => r.contentType = o.contentType &&
      r.contentId = o.contentId && r.locale = o.locale &&
      r.status = QStatus.pending) with
  | some r =>
      have hpred := List.find?_some hf
      simp only [Bool.and_eq_true, decide_eq_true_eq] at hpred
      obtain ⟨⟨⟨hqc, hqi⟩, hql⟩, hqs⟩ := hpred
      have hcnt : ∀ ct cid loc,
          pendingQueueFor (updateQueueById st.rows r.rid (fun q => { q with operation := o.operation, data := o.data, localVersion := o.localVersion, retryCount := 0 })) ct cid loc =
          pendingQueueFor st.rows ct cid loc := by
        intro ct cid loc
        unfold pendingQueueFor updateQueueById
        rw [List.countP_map]
        refine List.countP_congr ?_
        intro q _
        by_cases hq : q.rid = r.rid <;> simp [hq]
      refine ⟨?_, ?_, ?_, fun _ => by simp [updateQueueById], fun habs => ?_⟩
      · intro ct cid loc
        show pendingQueueFor _ ct cid loc ≤ 1
        rw [hcnt]
        exact hinv ct cid loc
      · show pendingQueueFor _ o.contentType o.contentId o.locale = 1
        rw [hcnt]
        refine Nat.le_antisymm (hinv _ _ _) ?_
        have : 0 < pendingQueueFor st.rows o.contentType o.contentId o.locale := by
          unfold pendingQueueFor
          rw [List.countP_pos_iff]
          exact ⟨r, List.mem_of_find?_eq_some hf,
            by simp [hqc, hqi, hql, hqs]⟩
        omega
      · refine ⟨{ r with operation := o.operation, data := o.data, localVersion := o.localVersion, retryCount := 0 },
          ?_, hqc, hqi, hql, hqs, rfl, rfl, rfl, rfl⟩
        have hmem := List.mem_of_find?_eq_some hf
        have := List.mem_map_of_mem
          (fun q => if q.rid = r.rid then { q with operation := o.operation, data := o.data, localVersion := o.localVersion, retryCount := 0 } else q)
          hmem
        simpa [updateQueueById] using this
      · exact Option.noConfusion habs
  | none =>
      have hzero : pendingQueueFor st.rows o.contentType o.contentId
          o.locale = 0 := by
        unfold pendingQueueFor
        rw [List.countP_eq_zero]
        intro q hq
        have := List.find?_eq_none.1 hf q hq
        simpa using this
      refine ⟨?_, ?_, ?_, fun habs => ?_, fun _ => by simp⟩
      · intro ct cid loc
        show pendingQueueFor (st.rows ++ [_]) ct cid loc ≤ 1
        unfold pendingQueueFor
        rw [List.countP_append]
        by_cases hk : ct = o.contentType ∧ cid = o.contentId ∧ loc = o.locale
        · obtain ⟨hk1, hk2, hk3⟩ := hk
          subst hk1
          subst hk2
          subst hk3
          unfold pendingQueueFor at hzero
          rw [hzero]
          simp [List.countP_cons]
        · have hone : List.countP (fun r => r.contentType = ct &&
              r.contentId = cid && r.locale = loc &&
              r.status = QStatus.pending)
              [({ rid := st.nextRid, shipId := o.shipId, contentType := o.contentType, contentId := o.contentId, operation := o.operation, localVersion := o.localVersion, data := o.data, locale := o.locale, status := .pending, retryCount := 0, createdAt := now } : SyncQueueEntry)] = 0 := by
            rw [List.countP_eq_zero]
            intro q hq
            rw [List.mem_singleton] at hq
            subst hq
            simp only [Bool.and_eq_true, decide_eq_true_eq, not_and]
            intro hand _
            exact absurd ⟨hand.1.1.symm, hand.1.2.symm, hand.2.symm⟩ hk
          rw [hone]
          have := hinv ct cid loc
          unfold pendingQueueFor at this
          omega
      · show pendingQueueFor (st.rows ++ [_]) o.contentType o.contentId
          o.locale = 1
        unfold pendingQueueFor
        rw [List.countP_append]
        unfold pendingQueueFor at hzero
        rw [hzero]
        simp [List.countP_cons]
      · refine ⟨_, List.mem_append_right _ (List.mem_singleton_self _),
          rfl, rfl, rfl, rfl, rfl, rfl, rfl, rfl⟩
      · obtain ⟨r, hr⟩ := habs
        exact Option.noConfusion hr

/-- The invariant survives any sequence of enqueues. -/
theorem enqueue_foldl_inv :
    ∀ (ops : List (Int × EnqArg)) (st : QueueState), QueueInv st →
      QueueInv (ops.foldl (fun s p => enqueue p.1 p.2 s) st)
  | [], _, h => h
  | p :: tl, st, h =>
      enqueue_foldl_inv tl (enqueue p.1 p.2 st) ((enqueue_step p.1 p.2 st h).1)

/-- C4: the replica outbound queue keeps at most one pending row per
(contentType, contentId, locale): every enqueue against a state satisfying
the invariant either overwrites the existing pending row for its key —
replacing operation, data and localVersion and resetting retryCount to 0,
without growing the table — or inserts one new pending row; afterwards
exactly one pending row carries the key, and the invariant holds after any
sequence of enqueues. -/
theorem syncQueue_enqueue_coalesces (st : QueueState) (hinv : QueueInv st) :
    (∀ now o,
      QueueInv (enqueue now o st) ∧
      pendingQueueFor (enqueue now o st).rows o.contentType o.contentId
        o.locale = 1 ∧
      (∃ q ∈ (enqueue now o st).rows, q.contentType = o.contentType ∧
        q.contentId = o.contentId ∧ q.locale = o.locale ∧
        q.status = QStatus.pending ∧ q.operation = o.operation ∧
        q.data = o.data ∧ q.localVersion = o.localVersion ∧
        q.retryCount = 0) ∧
      ((∃ r, st.rows.find? (fun r => r.contentType = o.contentType &&
          r.contentId = o.contentId && r.locale = o.locale &&
          r.status = QStatus.pending) = some r) →
        (enqueue now o st).rows.length = st.rows.length) ∧
      (st.rows.find? (fun r => r.contentType = o.contentType &&
          r.contentId = o.contentId && r.locale = o.locale &&
          r.status = QStatus.pending) = none →
        (enqueue now o st).rows.length = st.rows.length + 1)) ∧
    (∀ ops : List (Int × EnqArg),
      QueueInv (ops.foldl (fun s p => enqueue p.1 p.2 s) st)) :=
  ⟨fun now o => enqueue_step now o st hinv,
   fun ops => enqueue_foldl_inv ops st hinv⟩

/-- Witness for C4 starting from the empty queue. -/
theorem syncQueue_enqueue_coalesces_witness :
    pendingQueueFor
      (enqueue 5 ⟨"s1".toList, "api::a.a".toList, "d1".toList,
        "create".toList, 1, .null, none⟩ ⟨[], 0⟩).rows
      "api::a.a".toList "d1".toList none = 1 ∧
    QueueInv ([(6, (⟨"s1".toList, "api::a.a".toList, "d1".toList,
        "update".toList, 2, .null, none⟩ : EnqArg))].foldl
      (fun s p => enqueue p.1 p.2 s)
      ⟨[], 0⟩) :=
  ⟨((syncQueue_enqueue_coalesces ⟨[], 0⟩
      (fun ct cid loc => by simp [pendingQueueFor])).1 5
      ⟨"s1".toList, "api::a.a".toList, "d1".toList, "create".toList, 1,
        .null, none⟩).2.1,
   (syncQueue_enqueue_coalesces ⟨[], 0⟩
      (fun ct cid loc => by simp [pendingQueueFor])).2
     [(6, ⟨"s1".toList, "api::a.a".toList, "d1".toList, "update".toList, 2,
       .null, none⟩)]⟩

/-! ## C8: URL rewriting round trip — string level -/

theorem isPre_nil_right (A : JStr) (hA : A ≠ []) : isPre A [] = false := by
  cases A with
  | nil => exact absurd rfl hA
  | cons a as => rfl

theorem isPre_append_self (B t : JStr) : isPre B (B ++ t) = true := by
  induction B with
  | nil => rfl
  | cons b bs ih => simp [isPre, ih]

theorem isPre_append_drop :
    ∀ (A s : JStr), isPre A s = true → A ++ s.drop A.length = s
  | [], s, _ => rfl
  | a :: as, [], h => by simp [isPre] at h
  | a :: as, b :: bs, h => by
      simp only [isPre, Bool.and_eq_true, beq_iff_eq] at h
      obtain ⟨hab, hpre⟩ := h
      subst hab
      simpa using isPre_append_drop as bs hpre

/-- Fuel does not matter once it covers the scanned string. -/
theorem replFuel_fuel (A B : JStr) (hA : A ≠ []) :
    ∀ (n : Nat) (s : JStr) (f g : Nat), s.length ≤ n →
      s.length ≤ f → s.length ≤ g → replFuel A B f s = replFuel A B g s := by
  intro n
  induction n with
  | zero =>
      intro s f g hn _ _
      rw [Nat.le_zero, List.length_eq_zero] at hn
      subst hn
      cases f <;> cases g <;> rfl
  | succ n ih =>
      intro s f g hn hf hg
      cases s with
      | nil => cases f <;> cases g <;> rfl
      | cons c cs =>
          have hA1 : 1 ≤ A.length := List.length_pos.2 hA
          simp only [List.length_cons] at hn hf hg
          obtain ⟨f', rfl⟩ : ∃ f', f = f' + 1 :=
            ⟨f - 1, by omega⟩
          obtain ⟨g', rfl⟩ : ∃ g', g = g' + 1 :=
            ⟨g - 1, by omega⟩
          simp only [replFuel]
          by_cases hp : isPre A (c :: cs) = true
          · rw [if_pos hp, if_pos hp]
            have hlen : ((c :: cs).drop A.length).length ≤ n := by
              simp only [List.length_drop, List.length_cons]
              omega
            have hlf : ((c :: cs).drop A.length).length ≤ f' := by
              simp only [List.length_drop, List.length_cons]
              omega
            have hlg : ((c :: cs).drop A.length).length ≤ g' := by
              simp only [List.length_drop, List.length_cons]
              omega
            rw [ih _ f' g' hlen hlf hlg]
          · rw [if_neg hp, if_neg hp]
            have := ih cs f' g' (by omega) (by omega) (by omega)
            rw [this]

theorem replaceAll_pos (A B s : JStr) (hA : A ≠ []) (hs : s ≠ [])
    (hp : isPre A s = true) :
    replaceAll s A B = B ++ replaceAll (s.drop A.length) A B := by
  cases s with
  | nil => exact absurd rfl hs
  | cons c cs =>
      show replFuel A B (c :: cs).length (c :: cs) = _
      simp only [List.length_cons, replFuel, if_pos hp]
      congr 1
      have hA1 : 1 ≤ A.length := List.length_pos.2 hA
      exact replFuel_fuel A B hA (((c :: cs).drop A.length).length)
        ((c :: cs).drop A.length) cs.length (((c :: cs).drop A.length).length)
        le_rfl
        (by simp only [List.length_drop, List.length_cons]; omega)
        le_rfl

theorem replaceAll_neg (A B : JStr) (c : Char) (cs : JStr)
    (hp : isPre A (c :: cs) = false) :
    replaceAll (c :: cs) A B = c :: replaceAll cs A B := by
  show replFuel A B (c :: cs).length (c :: cs) = _
  simp only [List.length_cons, replFuel]
  rw [if_neg (show ¬(isPre A (c :: cs) = true) by simp [hp])]
  rfl

theorem hasSub_of_isPre (A s : JStr) (h : isPre A s = true) :
    hasSub A s = true := by
  cases s with
  | nil => simpa [hasSub] using h
  | cons c cs => simp [hasSub, h]

theorem hasSub_cons_tail (A : JStr) (c : Char) (cs : JStr)
    (h : hasSub A cs = true) : hasSub A (c :: cs) = true := by
  simp [hasSub, h]

theorem hasSub_suffix_mono (A u s : JStr) (hsuf : u <:+ s)
    (h : hasSub A u = true) : hasSub A s = true := by
  obtain ⟨t, rfl⟩ := hsuf
  induction t with
  | nil => simpa using h
  | cons x xs ih => exact hasSub_cons_tail A x _ ih

theorem exists_of_hasSub (A : JStr) :
    ∀ s, hasSub A s = true → ∃ u, u <:+ s ∧ isPre A u = true := by
  intro s
  induction s with
  | nil =>
      intro h
      exact ⟨[], List.suffix_refl [], by simpa [hasSub] using h⟩
  | cons c cs ih =>
      intro h
      simp only [hasSub, Bool.or_eq_true] at h
      rcases h with h | h
      · exact ⟨c :: cs, List.suffix_refl _, h⟩
      · obtain ⟨u, hu, hp⟩ := ih h
        exact ⟨u, hu.trans (List.suffix_cons c cs), hp⟩

theorem replaceAll_id_of_not_hasSub (A B : JStr) :
    ∀ s, hasSub A s = false → replaceAll s A B = s := by
  intro s
  induction s with
  | nil => intro _; rfl
  | cons c cs ih =>
      intro h
      simp only [hasSub, Bool.or_eq_false_iff] at h
      rw [replaceAll_neg A B c cs h.1, ih h.2]

theorem hasSub_replaceAll (A B : JStr) (hA : A ≠ []) :
    ∀ s, hasSub A s = true → hasSub B (replaceAll s A B) = true := by
  intro s
  induction s with
  | nil =>
      intro h
      rw [show hasSub A [] = isPre A [] from rfl, isPre_nil_right A hA] at h
      cases h
  | cons c cs ih =>
      intro h
      by_cases hp : isPre A (c :: cs) = true
      · rw [replaceAll_pos A B (c :: cs) hA (by simp) hp]
        exact hasSub_of_isPre B _ (isPre_append_self B _)
      · simp only [hasSub, Bool.or_eq_true] at h
        rcases h with h | h
        · exact absurd h hp
        · rw [replaceAll_neg A B c cs (by simpa using hp)]
          exact hasSub_cons_tail B c _ (ih h)

/-- No junk occurrences of the to-base: along every non-matching suffix of
the string, the rewrite never brings the to-base B to the front.  This is
exactly the condition under which the global replacement can be undone; it
holds in particular when B occurs nowhere in the string (only from-base
URLs). -/
def NoJunk (A B s : JStr) : Prop :=
  ∀ u ∈ s.tails, u ≠ [] → isPre A u = false →
    isPre B (replaceAll u A B) = false

theorem noJunk_suffix (A B u s : JStr) (hsuf : u <:+ s)
    (h : NoJunk A B s) : NoJunk A B u := by
  intro v hv hvne hvp
  refine h v ?_ hvne hvp
  rw [List.mem_tails] at hv ⊢
  exact hv.trans hsuf

/-- The core of C8: with both bases non-empty and no junk occurrences of
the to-base, rewriting A to B and then B to A restores the string. -/
theorem replaceAll_roundtrip (A B : JStr) (hA : A ≠ []) (hB : B ≠ []) :
    ∀ (n : Nat) (s : JStr), s.length ≤ n → NoJunk A B s →
      replaceAll (replaceAll s A B) B A = s := by
  intro n
  induction n with
  | zero =>
      intro s hn _
      rw [Nat.le_zero, List.length_eq_zero] at hn
      subst hn
      rfl
  | succ n ih =>
      intro s hn hnj
      cases s with
      | nil => rfl
      | cons c cs =>
          have hA1 : 1 ≤ A.length := List.length_pos.2 hA
          simp only [List.length_cons] at hn
          by_cases hp : isPre A (c :: cs) = true
          · rw [replaceAll_pos A B (c :: cs) hA (by simp) hp]
            have hpre : isPre B (B ++ replaceAll ((c :: cs).drop A.length) A B) = true :=
              isPre_append_self B _
            rw [replaceAll_pos B A _ hB (by cases B with
              | nil => exact absurd rfl hB
              | cons b bs => simp) hpre]
            rw [List.drop_left]
            have hlen : ((c :: cs).drop A.length).length ≤ n := by
              simp only [List.length_drop, List.length_cons]
              omega
            rw [ih _ hlen (noJunk_suffix A B _ _ (List.drop_suffix _ _) hnj)]
            exact isPre_append_drop A (c :: cs) hp
          · have hp' : isPre A (c :: cs) = false := by
              simpa using hp
            rw [replaceAll_neg A B c cs hp']
            have hBp : isPre B (c :: replaceAll cs A B) = false := by
              have := hnj (c :: cs)
                ((List.mem_tails _ _).2 (List.suffix_refl _)) (by simp) hp'
              rwa [replaceAll_neg A B c cs hp'] at this
            rw [replaceAll_neg B A c _ hBp]
            have hlen : cs.length ≤ n := by omega
            rw [ih cs hlen (noJunk_suffix A B cs _ (List.suffix_cons c cs) hnj)]

/-- The round trip through the guarded string replacement of
transformUrls. -/
theorem jsReplace_roundtrip (A B s : JStr) (hA : A ≠ []) (hB : B ≠ [])
    (hnj : NoJunk A B s) : jsReplace (jsReplace s A B) B A = s := by
  unfold jsReplace
  by_cases hsub : hasSub A s = true
  · rw [if_pos hsub, if_pos (hasSub_replaceAll A B hA s hsub)]
    exact replaceAll_roundtrip A B hA hB s.length s le_rfl hnj
  · have hsub' : hasSub A s = false := by simpa using hsub
    rw [if_neg (show ¬(hasSub A s = true) by simp [hsub'])]
    have hBs : hasSub B s = false := by
      by_contra hco
      have hco' : hasSub B s = true := by
        cases hcb : hasSub B s with
        | false => exact absurd hcb hco
        | true => rfl
      obtain ⟨u, hu, hpB⟩ := exists_of_hasSub B s hco'
      have hune : u ≠ [] := by
        intro he
        subst he
        rw [isPre_nil_right B hB] at hpB
        cases hpB
      have huA : hasSub A u = false := by
        cases hau : hasSub A u with
        | false => rfl
        | true => exact absurd (hasSub_suffix_mono A u s hu hau) (by simp [hsub'])
      have hupA : isPre A u = false := by
        cases hpA : isPre A u with
        | false => rfl
        | true =>
            have := hasSub_of_isPre A u hpA
            rw [huA] at this
            cases this
      have := hnj u ((List.mem_tails _ _).2 hu) hune hupA
      rw [replaceAll_id_of_not_hasSub A B u huA] at this
      rw [hpB] at this
      cases this
    rw [if_neg (show ¬(hasSub B s = true) by simp [hBs])]

/-! ## C8: URL rewriting round trip — payload level -/

instance noJunkDecidable (A B s : JStr) : Decidable (NoJunk A B s) :=
  inferInstanceAs (Decidable (∀ u ∈ s.tails, u ≠ [] → isPre A u = false →
    isPre B (replaceAll u A B) = false))

mutual

/-- Every string of the payload is junk-free for the pair of bases. -/
def strsNoJunk (A B : JStr) : Json → Bool
  | .str s => decide (NoJunk A B s)
  | .arr l => strsNoJunkArr A B l
  | .obj o => strsNoJunkObj A B o
  | _ => true

def strsNoJunkArr (A B : JStr) : JsonArr → Bool
  | .nil => true
  | .cons hd tl => strsNoJunk A B hd && strsNoJunkArr A B tl

def strsNoJunkObj (A B : JStr) : JsonObj → Bool
  | .nil => true
  | .cons _ v tl => strsNoJunk A B v && strsNoJunkObj A B tl

end

mutual

theorem transformUrls_rt (A B : JStr) (mf : List JStr) (hA : A ≠ [])
    (hB : B ≠ []) (j : Json) (d : Nat) (h : strsNoJunk A B j = true) :
    transformUrls B A mf (transformUrls A B mf j d) d = j := by
  by_cases hd : d > 20
  · have h1 : transformUrls A B mf j d = j := by
      unfold transformUrls
      rw [if_pos hd]
    rw [h1]
    unfold transformUrls
    rw [if_pos hd]
  · cases j with
    | null =>
        have h1 : transformUrls A B mf Json.null d = Json.null := by
          unfold transformUrls
          rw [if_neg hd]
        rw [h1]
        unfold transformUrls
        rw [if_neg hd]
    | bool b =>
        have h1 : transformUrls A B mf (Json.bool b) d = Json.bool b := by
          unfold transformUrls
          rw [if_neg hd]
        rw [h1]
        unfold transformUrls
        rw [if_neg hd]
    | num n =>
        have h1 : transformUrls A B mf (Json.num n) d = Json.num n := by
          unfold transformUrls
          rw [if_neg hd]
        rw [h1]
        unfold transformUrls
        rw [if_neg hd]
    | str s =>
        have h1 : transformUrls A B mf (Json.str s) d =
            Json.str (jsReplace s A B) := by
          unfold transformUrls
          rw [if_neg hd]
        have h2 : transformUrls B A mf (Json.str (jsReplace s A B)) d =
            Json.str (jsReplace (jsReplace s A B) B A) := by
          unfold transformUrls
          rw [if_neg hd]
        have hnj : NoJunk A B s :=
          of_decide_eq_true (by simpa [strsNoJunk] using h)
        rw [h1, h2, jsReplace_roundtrip A B s hA hB hnj]
    | arr l =>
        have h1 : transformUrls A B mf (Json.arr l) d =
            Json.arr (transformUrlsArr A B mf l (d + 1)) := by
          unfold transformUrls
          rw [if_neg hd]
        have h2 : transformUrls B A mf
            (Json.arr (transformUrlsArr A B mf l (d + 1))) d =
            Json.arr (transformUrlsArr B A mf
              (transformUrlsArr A B mf l (d + 1)) (d + 1)) := by
          unfold transformUrls
          rw [if_neg hd]
        have hl : strsNoJunkArr A B l = true := by
          simpa [strsNoJunk] using h
        rw [h1, h2, transformUrlsArr_rt A B mf hA hB l (d + 1) hl]
    | obj o =>
        have h1 : transformUrls A B mf (Json.obj o) d =
            Json.obj (transformUrlsObj A B mf o (d + 1)) := by
          unfold transformUrls
          rw [if_neg hd]
        have h2 : transformUrls B A mf
            (Json.obj (transformUrlsObj A B mf o (d + 1))) d =
            Json.obj (transformUrlsObj B A mf
              (transformUrlsObj A B mf o (d + 1)) (d + 1)) := by
          unfold transformUrls
          rw [if_neg hd]
        have ho : strsNoJunkObj A B o = true := by
          simpa [strsNoJunk] using h
        rw [h1, h2, transformUrlsObj_rt A B mf hA hB o (d + 1) ho]

theorem transformUrlsArr_rt (A B : JStr) (mf : List JStr) (hA : A ≠ [])
    (hB : B ≠ []) (l : JsonArr) (d : Nat) (h : strsNoJunkArr A B l = true) :
    transformUrlsArr B A mf (transformUrlsArr A B mf l d) d = l := by
  cases l with
  | nil => rfl
  | cons hd tl =>
      simp only [strsNoJunkArr, Bool.and_eq_true] at h
      show JsonArr.cons (transformUrls B A mf (transformUrls A B mf hd d) d)
        (transformUrlsArr B A mf (transformUrlsArr A B mf tl d) d) =
        JsonArr.cons hd tl
      rw [transformUrls_rt A B mf hA hB hd d h.1,
        transformUrlsArr_rt A B mf hA hB tl d h.2]

theorem transformUrlsObj_rt (A B : JStr) (mf : List JStr) (hA : A ≠ [])
    (hB : B ≠ []) (o : JsonObj) (d : Nat) (h : strsNoJunkObj A B o = true) :
    transformUrlsObj B A mf (transformUrlsObj A B mf o d) d = o := by
  cases o with
  | nil => rfl
  | cons k v tl =>
      simp only [strsNoJunkObj, Bool.and_eq_true] at h
      show JsonObj.cons k (transformUrls B A mf (transformUrls A B mf v d) d)
        (transformUrlsObj B A mf (transformUrlsObj A B mf tl d) d) =
        JsonObj.cons k v tl
      rw [transformUrls_rt A B mf hA hB v d h.1,
        transformUrlsObj_rt A B mf hA hB tl d h.2]

end

/-- C8 counterexample: for a payload that is a B-prefixed URL, the rewrite
A→B leaves it alone and the rewrite B→A then maps it to an A-prefixed URL,
so the round trip does not return the original payload. -/
theorem transformUrls_roundtrip_fails_on_B :
    transformUrls "b/".toList "a/".toList []
        (transformUrls "a/".toList "b/".toList []
          (Json.str "b/i.png".toList) 0) 0 ≠
      Json.str "b/i.png".toList := by
  decide

/-- C8 amended: the round trip rewriteUrls(rewriteUrls(x, A, B), B, A) = x
holds for payloads whose strings are junk-free for (A, B): the to-base B
occurs only where the rewrite inserts it — in particular for payloads
containing only A-prefixed URLs.  A payload already containing a B-prefixed
URL is collapsed to the A-prefixed form instead (see the counterexample). -/
theorem transformUrls_roundtrip (A B : JStr) (mf : List JStr) (hA : A ≠ [])
    (hB : B ≠ []) (j : Json) (d : Nat) (h : strsNoJunk A B j = true) :
    transformUrls B A mf (transformUrls A B mf j d) d = j :=
  transformUrls_rt A B mf hA hB j d h

/-- Witness for C8: a payload holding one A-prefixed URL round-trips. -/
theorem transformUrls_roundtrip_witness :
    transformUrls "b/".toList "a/".toList []
        (transformUrls "a/".toList "b/".toList []
          (Json.obj (.cons "url".toList (.str "a/i.png".toList) .nil)) 0) 0 =
      Json.obj (.cons "url".toList (.str "a/i.png".toList) .nil) :=
  transformUrls_roundtrip "a/".toList "b/".toList [] (by decide) (by decide)
    (Json.obj (.cons "url".toList (.str "a/i.png".toList) .nil)) 0 (by decide)

end OfflineSync
